import Mathlib

/-!
Verification development for the decred/tumblebit repository.

The Go sources are shallowly embedded: byte strings (`[]byte`) become
`List Nat` (each entry a byte value), `math/big` integers become `Nat`
(or `Int` where the Go code manipulates signed values), and fallible Go
functions return `Except String` / an explicit result type.  External
collaborators (the wallet adapter, `crypto/rand`, hash functions and the
`contract` transaction builder) are passed in as oracle parameters; all
logic that lives in the repository itself is translated directly.
-/

namespace Tumblebit

/-- Byte strings: a `[]byte` value, one `Nat` per byte (big-endian where the
value encodes an integer, exactly as `math/big.Int.Bytes`). -/
abbrev Bytes := List Nat

/-- `math/big.Int.Bytes()`: minimal big-endian encoding; the empty slice
encodes zero. -/
def byteEncode (x : Nat) : Bytes :=
  if x = 0 then [] else byteEncode (x / 256) ++ [x % 256]
termination_by x
decreasing_by exact Nat.div_lt_self (Nat.pos_of_ne_zero (by assumption)) (by omega)

/-- `math/big.Int.SetBytes()`: big-endian interpretation of a byte string. -/
def byteDecode (l : Bytes) : Nat :=
  l.foldl (fun acc b => acc * 256 + b) 0

theorem byteDecode_append (l : Bytes) (b : Nat) :
    byteDecode (l ++ [b]) = byteDecode l * 256 + b := by
  simp [byteDecode, List.foldl_append]

theorem byteDecode_byteEncode (x : Nat) : byteDecode (byteEncode x) = x := by
  induction x using Nat.strong_induction_on with
  | _ x ih =>
    by_cases h : x = 0
    · simp [byteEncode, h, byteDecode]
    · rw [byteEncode, if_neg h, byteDecode_append,
        ih (x / 256) (Nat.div_lt_self (Nat.pos_of_ne_zero h) (by omega))]
      omega

/-- `subtle.ConstantTimeCompare(a, b) == 1` holds exactly when the byte
strings are equal (it returns 0 on a length mismatch). -/
def constantTimeEq (a b : Bytes) : Bool := a = b

/-! ## puzzle/puzzlelist.go -/

/-- `EncodeIndexList`: encodes ints in `[0, 65535]` as 16-bit little-endian
words; any out-of-range entry fails with an error. -/
def EncodeIndexList : List Int → Except String Bytes
  | [] => .ok []
  | i :: rest =>
    if i < 0 || i > 65535 then .error "index out of bounds"
    else do
      let tail ← EncodeIndexList rest
      pure ((i.toNat % 256) :: (i.toNat / 256) :: tail)

/-- `DecodeIndexList`: requires an even byte count and reads 16-bit
little-endian words. -/
def DecodeIndexList (l : Bytes) : Except String (List Int) :=
  if l.length % 2 ≠ 0 then .error "bad list length"
  else .ok (decodeWords l)
where
  decodeWords : Bytes → List Int
    | b0 :: b1 :: rest => ((b0 + 256 * b1 : Nat) : Int) :: decodeWords rest
    | _ => []

/-- `HashIndexList(salt, list)`: BLAKE2s-256 of the encoded list keyed by
`salt`; the hash itself is external (`golang.org/x/crypto/blake2s`) and is
abstracted by the parameter `blake`. -/
def HashIndexList (blake : Bytes → Bytes → Bytes) (salt : Bytes)
    (indexList : List Int) : Except String Bytes := do
  let buf ← EncodeIndexList indexList
  pure (blake salt buf)

theorem encodeIndexList_sound (l : List Int) (h : ∀ i ∈ l, 0 ≤ i ∧ i ≤ 65535) :
    ∃ bs, EncodeIndexList l = .ok bs ∧
      DecodeIndexList bs = .ok l ∧ bs.length = 2 * l.length := by
  induction l with
  | nil => exact ⟨[], rfl, rfl, rfl⟩
  | cons i rest ih =>
    obtain ⟨hi0, hi1⟩ := h i (List.mem_cons_self ..)
    obtain ⟨bs, hbs, hdec, hlen⟩ := ih (fun j hj => h j (List.mem_cons_of_mem _ hj))
    have hlen2 : ((i.toNat % 256) :: (i.toNat / 256) :: bs).length =
        2 * (i :: rest).length := by
      simp only [List.length_cons, hlen]; omega
    refine ⟨(i.toNat % 256) :: (i.toNat / 256) :: bs, ?_, ?_, hlen2⟩
    · simp only [EncodeIndexList]
      rw [if_neg (by simp; omega)]
      rw [hbs]; rfl
    · have hbslen : bs.length % 2 = 0 := by omega
      have hdec' : DecodeIndexList.decodeWords bs = rest := by
        simp only [DecodeIndexList, if_neg (by omega : ¬bs.length % 2 ≠ 0)] at hdec
        exact Except.ok.inj hdec
      simp only [DecodeIndexList]
      rw [if_neg (by simp only [List.length_cons]; omega)]
      simp only [DecodeIndexList.decodeWords, hdec']
      have h1 : i.toNat % 256 + 256 * (i.toNat / 256) = i.toNat := by omega
      rw [h1, Int.toNat_of_nonneg hi0]

/-- Outcome of a Go computation: a value, a returned `error`, or a runtime
fault (out-of-range slice index / panic). -/
inductive Res (α : Type) where
  | ok : α → Res α
  | err : String → Res α
  | fault : Res α
deriving DecidableEq, Repr

/-- Go slice indexing `l[i]`: faults (panics) out of range. -/
def arrGet {α : Type} (l : List α) (i : Int) : Res α :=
  if h : 0 ≤ i ∧ i.toNat < l.length then .ok (l.get ⟨i.toNat, h.2⟩)
  else .fault

/-! ## puzzle/puzzle.go -/

/-- `modInverse(a, n)`: extended-GCD inverse.  The Go code returns the Bezout
coefficient of `a` (shifted into `(0, n)` when negative); any value congruent
to it mod `n` is interchangeable downstream, so the embedding returns the
canonical representative in `[0, n)`. -/
def modInverse (a n : Nat) : Option Nat :=
  if Nat.gcd a n = 1 then some ((Nat.gcdA a n % (n : Int)).toNat) else none

/-- `PuzzlePubKey`: the public form `(e, N)` of an RSA key. -/
structure PuzzlePubKey where
  n : Nat
  e : Nat
deriving DecidableEq, Repr

/-- `createPuzzle(pk, secret) = secret^e mod N`, returned as bytes. -/
def createPuzzle (pk : PuzzlePubKey) (secret : Nat) : Bytes :=
  byteEncode (secret ^ pk.e % pk.n)

/-- `ValidatePuzzle(pk, puzzle, secret)`: `secret < N` and
`secret^e mod N` encodes to `puzzle`. -/
def ValidatePuzzle (pk : PuzzlePubKey) (puzzle secret : Bytes) : Bool :=
  if pk.n ≤ byteDecode secret then false
  else constantTimeEq (createPuzzle pk (byteDecode secret)) puzzle

/-- `UnblindPuzzle(pk, p, r) = p·r mod N`. -/
def UnblindPuzzle (pk : PuzzlePubKey) (p r : Bytes) : Bytes :=
  byteEncode (byteDecode p * byteDecode r % pk.n)

/-- `ValidateBlindedPuzzle(pk, blinding, puzzle, secret)`:
`unblind(pk, puzzle, secret^e mod N)` encodes to `blinding`. -/
def ValidateBlindedPuzzle (pk : PuzzlePubKey) (blinding puzzle secret : Bytes) :
    Bool :=
  if pk.n ≤ byteDecode secret then false
  else constantTimeEq
    (UnblindPuzzle pk puzzle (createPuzzle pk (byteDecode secret))) blinding

/-- The quotient-building loop of `Quotients`: `prev` is the value of the
preceding secret, and each step divides the current secret by it mod `N`. -/
def quotientsLoop (n : Nat) : Nat → List Bytes → Except String (List Bytes)
  | _, [] => .ok []
  | prev, s :: rest =>
    match modInverse prev n with
    | none => .error "malformed secret"
    | some ai =>
      (quotientsLoop n (byteDecode s) rest).map
        (byteEncode (byteDecode s * ai % n) :: ·)

/-- `Quotients(pk, secrets)`: `q₀ = 1`, `qᵢ = sᵢ·sᵢ₋₁⁻¹ mod N`.  The Go code
indexes `quotients[0]` unconditionally and so faults on an empty slice. -/
def Quotients (pk : PuzzlePubKey) (secrets : List Bytes) : Res (List Bytes) :=
  match secrets with
  | [] => .fault
  | s0 :: rest =>
    match quotientsLoop pk.n (byteDecode s0) rest with
    | .error e => .err e
    | .ok qs => .ok (byteEncode 1 :: qs)

/-- The check loop of `VerifyQuotientsWithSecrets`: multiplies `prod` by each
quotient and compares with the secret at the same index.  The Go code indexes
`secrets[i]` for every `i < len(qs)` and faults when `qs` is longer; the
embedding returns `false` there. -/
def verifySecretsLoop (n : Nat) : Nat → List Bytes → List Bytes → Bool
  | _, [], _ => true
  | prod, q :: qs, s :: ss =>
    let prod' := prod * byteDecode q % n
    if constantTimeEq s (byteEncode prod') then verifySecretsLoop n prod' qs ss
    else false
  | _, _ :: _, [] => false

/-- `VerifyQuotientsWithSecrets(pk, qs, secrets)`: recover each secret as the
running product `s₀·q₀·…·qᵢ mod N`.  Go indexes `secrets[0]` unconditionally
(faulting when empty; the embedding returns `false`). -/
def VerifyQuotientsWithSecrets (pk : PuzzlePubKey) (qs secrets : List Bytes) :
    Bool :=
  match secrets with
  | [] => false
  | s0 :: _ => verifySecretsLoop pk.n (byteDecode s0) qs secrets

/-- The check loop of `VerifyQuotients`, running over `qs[1:]` with the
corresponding adjacent puzzle pairs; Go faults when `puzzles` is too short
(the embedding returns `false`). -/
def verifyPuzzlesLoop (n e : Nat) : List Bytes → List Bytes → Bool
  | [], _ => true
  | q :: qs, zprev :: z :: zs =>
    if constantTimeEq z
        (byteEncode (byteDecode zprev * (byteDecode q ^ e % n) % n)) then
      verifyPuzzlesLoop n e qs (z :: zs)
    else false
  | _ :: _, _ => false

/-- `VerifyQuotients(pk, qs, puzzles)`: `zᵢ ≡ zᵢ₋₁·qᵢ^e mod N`, starting at
index 1 (`q₀` is a sentinel). -/
def VerifyQuotients (pk : PuzzlePubKey) (qs puzzles : List Bytes) : Bool :=
  match qs with
  | [] => true
  | _ :: qs1 => verifyPuzzlesLoop pk.n pk.e qs1 puzzles

/-- One entry of `rsa.PrecomputedValues.CRTValues` (exponent, coefficient and
prime-product `R` for each prime beyond the second). -/
structure CRTValue where
  exp : Nat
  coeff : Int
  r : Int
deriving DecidableEq, Repr

/-- The `Dp`/`Dq`/`Qinv` part of `rsa.PrecomputedValues`. -/
structure Precomputed where
  dp : Nat
  dq : Nat
  qinv : Int
  crtValues : List CRTValue
deriving DecidableEq, Repr

/-- The fields of `rsa.PrivateKey` used by `decryptPuzzle`.  `precomputed` is
`none` when `Precomputed.Dp == nil` in Go. -/
structure RSAPrivateKey where
  n : Nat
  e : Nat
  d : Nat
  primes : List Nat
  precomputed : Option Precomputed
deriving DecidableEq, Repr

/-- `PuzzleKey`: RSA private key plus the per-key blinding factor and its
modular inverse. -/
structure PuzzleKey where
  rsakey : RSAPrivateKey
  factor : Nat
  inverse : Nat
deriving DecidableEq, Repr

def PuzzleKey.PublicKey (pk : PuzzleKey) : PuzzlePubKey :=
  { n := pk.rsakey.n, e := pk.rsakey.e }

/-- One iteration of the multi-prime CRT loop of `decryptPuzzle`
(`for i, values := range priv.Precomputed.CRTValues`). -/
def crtStep (c : Nat) (m : Int) (cvp : CRTValue × Nat) : Int :=
  let cv := cvp.1
  let prime := cvp.2
  let m2 : Int := (c ^ cv.exp % prime : Nat)
  let u := (m2 - m) * cv.coeff % (prime : Int)
  let u := if u < 0 then u + prime else u
  m + u * cv.r

/-- `decryptPuzzle(pk, c)`: blind with `factor^e`, run the (multi-prime) CRT
exponentiation, unblind with `inverse`.  The Go loop pairs `CRTValues[i]`
with `Primes[2+i]`; the embedding zips the two lists. -/
def decryptPuzzle (pk : PuzzleKey) (c : Nat) : Except String Nat :=
  let priv := pk.rsakey
  if priv.n < c then .error "value too large"
  else
    let rpowe := pk.factor ^ priv.e % priv.n
    let c' := c * rpowe % priv.n
    let m : Int :=
      match priv.precomputed with
      | none => (c' ^ priv.d % priv.n : Nat)
      | some pre =>
        let p := priv.primes.getD 0 0
        let q := priv.primes.getD 1 0
        let m1 : Int := (c' ^ pre.dp % p : Nat)
        let m2 : Int := (c' ^ pre.dq % q : Nat)
        let t := m1 - m2
        let t := if t < 0 then t + p else t
        let t := t * pre.qinv % (p : Int)
        let t := t * q
        let mbase := t + m2
        (pre.crtValues.zip (priv.primes.drop 2)).foldl (crtStep c') mbase
    .ok ((m * pk.inverse % (priv.n : Int)).toNat)

/-- `SolvePuzzle(pk, p)`: decrypt, then verify `m^e mod N == p` in constant
time; mismatches fail with a CRT-fault error. -/
def SolvePuzzle (pk : PuzzleKey) (p : Bytes) : Except String Bytes := do
  let m ← decryptPuzzle pk (byteDecode p)
  if constantTimeEq (createPuzzle pk.PublicKey m) p then
    pure (byteEncode m)
  else
    .error "error in the CRT computation"

/-! ## shuffle/shuffle.go

The random source is an infinite stream of 32-bit reads
(`binary.Read(random, ..., &v)`), modelled as `src : Nat → Nat` indexed by
read count (each value taken mod 2^32).  The Lemire rejection loop of
`uniformRandom31` can retry unboundedly, so it carries fuel; exhausted fuel
yields `none` (the Go code would simply keep reading).
-/

/-- The rejection loop of `uniformRandom31`: keep drawing while the low
32 bits of `v*n` are under the threshold.  Returns the final product and the
next read position. -/
def lemireLoop (src : Nat → Nat) (n thresh : Nat) :
    Nat → Nat → Nat → Option (Nat × Nat)
  | _, _, 0 => none
  | prod, pos, fuel + 1 =>
    if prod % 2 ^ 32 < thresh then
      let v := src pos % 2 ^ 32
      lemireLoop src n thresh (v * n) (pos + 1) fuel
    else some (prod, pos)

/-- `uniformRandom31(random, n)`: Lemire's multiply-shift method with
rejection; returns the value together with the next read position. -/
def uniformRandom31 (src : Nat → Nat) (pos fuel n : Nat) :
    Option (Nat × Nat) := do
  let v := src pos % 2 ^ 32
  let prod := v * n
  let low := prod % 2 ^ 32
  if low < n then
    let thresh := (2 ^ 32 - n) % n
    let (prod', pos') ← lemireLoop src n thresh prod (pos + 1) (fuel + 1)
    pure (prod' / 2 ^ 32, pos')
  else
    pure (prod / 2 ^ 32, pos)

/-- Go's parallel assignment swap `a[i], a[j] = a[j], a[i]`. -/
def swapL (l : List Nat) (i j : Nat) : List Nat :=
  let vi := l.getD i 0
  let vj := l.getD j 0
  (l.set i vj).set j vi

/-- The Fisher–Yates loop of `Shuffle` (`for i := n - 1; i > 0; i--`),
threading the caller's array `a`, the scratch `idx` array and the inverse
map `perm`. -/
def shuffleLoop (src : Nat → Nat) (fuel : Nat) :
    Nat → Nat → List Nat → List Nat → List Nat →
    Option (List Nat × List Nat × List Nat)
  | _, 0, a, idx, perm => some (a, idx, perm)
  | pos, i + 1, a, idx, perm =>
    match uniformRandom31 src pos fuel (i + 2) with
    | none => none
    | some (j, pos') =>
      let a' := swapL a (i + 1) j
      let idx' := swapL idx (i + 1) j
      let perm' := perm.set (idx'.getD (i + 1) 0) (i + 1)
      shuffleLoop src fuel pos' i a' idx' perm'

/-- The outcome of `Shuffle`: Go panics on an invalid `n`; `incomplete`
stands for a run whose rejection loops outlived the provided fuel. -/
inductive ShuffleResult where
  | panicked : ShuffleResult
  | incomplete : ShuffleResult
  | done : List Nat → List Nat → ShuffleResult
deriving DecidableEq, Repr

/-- `Shuffle(random, n, swap)`: Fisher–Yates with an inverse-permutation map.
The caller's `swap` closure is modelled by threading the array `a` it swaps;
the returned `ShuffleMap.perm` is the second component of `done`. -/
def Shuffle (src : Nat → Nat) (fuel : Nat) (n : Int) (a : List Nat) :
    ShuffleResult :=
  if n < 0 || n > 2 ^ 31 - 1 - 1 then .panicked
  else
    let nn := n.toNat
    let idx := List.range nn
    let perm := List.replicate nn 0
    match shuffleLoop src fuel 0 (nn - 1) a idx perm with
    | none => .incomplete
    | some (a', _, perm') => .done a' perm'

/-- `ShuffleMap.Get`: direct read of the inverse map. -/
def ShuffleMap.Get (perm : List Nat) (index : Nat) : Nat :=
  perm.getD index 0

/-! ## tumbler: constants.go, session state machine, tumbler.go -/

/-- `EpochDuration` (tumbler/constants.go). -/
def EpochDuration : Int := 10

/-- Session state constants (the Go iota block). -/
def StateInitial : Nat := 0

def StateEscrowComplete : Nat := 1

def StatePuzzlesPromised : Nat := 2

def StatePuzzlesValidated : Nat := 3

def StateEscrowPublished : Nat := 4

def MaxPayeeState : Nat := 5

def StateSolutionsPromised : Nat := 6

def StateSolutionsValidated : Nat := 7

def StateOfferReceived : Nat := 8

def StateSolutionPublished : Nat := 9

def MaxPayerState : Nat := 10

def stateNames : List String :=
  ["InitialState", "EscrowComplete", "PuzzlesPromised", "PuzzlesValidated",
   "EscrowPublished", "MaxPayeeState", "SolutionsPromised",
   "SolutionsValidated", "OfferReceived", "SolutionPublished",
   "MaxPayerState"]

/-- Finalization reason constants. -/
def ReasonSuccess : Nat := 0

def ReasonSessionExpired : Nat := 1

def ReasonFailedExchange : Nat := 2

def ReasonInternalError : Nat := 3

/-- The *not ready* error text of `Session.ready`. -/
def notReadyMsg (next state : Nat) : String :=
  "not ready to advance to " ++ stateNames.getD next "" ++ " from " ++
    stateNames.getD state ""

/-- `Session.ready(next)`: the transition rule of the dual state machine. -/
def ready (state next : Nat) : Except String Unit :=
  if state = StateInitial then
    if next = StateEscrowComplete || next = StateSolutionsPromised then .ok ()
    else .error (notReadyMsg next state)
  else if state = StateEscrowPublished || state = StateSolutionPublished then
    .error ("cannot advance past the final stage: requested " ++
      stateNames.getD next "")
  else if next = state + 1 then .ok ()
  else .error (notReadyMsg next state)

/-- Signed 32-bit wrap-around, for Go `int32` arithmetic. -/
def wrap32 (x : Int) : Int := (x + 2 ^ 31) % 2 ^ 32 - 2 ^ 31

/-- An `Epoch`: block height, lazily allocated receive address and the
epoch's puzzle key. -/
structure EpochS where
  address : String
  pubkey : String
  blockHeight : Int
  puzzleKey : PuzzleKey
deriving DecidableEq, Repr

/-- The height-indexed epoch state of a `Tumbler` (session table, ticker
lists and the wallet handle live outside this model). -/
structure TumblerS where
  lastEpoch : Int
  epochs : List EpochS
  epochDuration : Int
deriving DecidableEq, Repr

/-- `Tumbler.NewEpoch(blockHeight)`.  Key generation draws randomness, so
the generated key arrives as the `keygen` parameter.  Go nils out expired
entries and then slices off that many from the front; under the strictly
increasing invariant the expired entries are exactly a prefix, which the
embedding expresses as `drop`. -/
def NewEpoch (keygen : Except String PuzzleKey) (tb : TumblerS)
    (blockHeight : Int) : Except String TumblerS :=
  if (match tb.epochs.getLast? with
      | some e => decide (e.blockHeight ≥ blockHeight)
      | none => false) then
    .error "bad block height"
  else do
    let pk ← keygen
    let expired := tb.epochs.countP fun e =>
      decide (wrap32 (e.blockHeight + tb.epochDuration) < blockHeight)
    pure { tb with
      epochs := tb.epochs.drop expired ++
        [{ address := "", pubkey := "", blockHeight := blockHeight,
           puzzleKey := pk }],
      lastEpoch := blockHeight }

/-- `Tumbler.getCurrentEpoch`: the atomically published `lastEpoch`, with 0
doubling as "none". -/
def getCurrentEpoch (tb : TumblerS) : Except String Int :=
  if tb.lastEpoch ≠ 0 then .ok tb.lastEpoch else .error "no current epoch"

/-- `Tumbler.getPuzzleKey(blockHeight)`: linear search for an exact match. -/
def getPuzzleKey (tb : TumblerS) (blockHeight : Int) :
    Except String PuzzleKey :=
  match tb.epochs.find? (fun e => decide (e.blockHeight = blockHeight)) with
  | some e => .ok e.puzzleKey
  | none => .error "no such epoch"

/-- `Tumbler.getEpochAddress`: cached address, near-expiry refusal, or lazy
allocation through the wallet (`getExt`); writing the allocated address back
into the epoch is a cache and is not modelled. -/
def getEpochAddress (getExt : Except String (String × String))
    (tb : TumblerS) (blockHeight : Int) : Except String (String × String) :=
  match tb.epochs.find? (fun e => decide (e.blockHeight = blockHeight)) with
  | some e =>
    if e.address.length > 0 then .ok (e.address, e.pubkey)
    else if wrap32 (e.blockHeight + tb.epochDuration) <
        wrap32 (tb.lastEpoch - 1) then
      .error "epoch too old"
    else getExt
  | none => .error "no such epoch"

/-- The per-session state (the serialization semaphore, timers and cookie
bookkeeping are outside the sequential model; `hasContract` stands for
`contract != nil` and `disconnected` records that `Tumbler.Disconnect` ran). -/
structure SessionS where
  finsema : Bool
  address : String
  epoch : Int
  hasContract : Bool
  state : Nat
  err : Option String
  puzzles : List Bytes
  secrets : List Bytes
  solutions : List Bytes
  txHashes : List Bytes
  realSetHash : Bytes
  fakeSetHash : Bytes
  realPuzzleList : List Int
  deadlineSet : Bool
  disconnected : Bool
deriving DecidableEq, Repr

/-- A freshly connected session (`NewSession`). -/
def newSession (address : String) : SessionS :=
  { finsema := false, address := address, epoch := 0, hasContract := false,
    state := StateInitial, err := none, puzzles := [], secrets := [],
    solutions := [], txHashes := [], realSetHash := [], fakeSetHash := [],
    realPuzzleList := [], deadlineSet := false, disconnected := false }

/-- `Session.FinalizeExchange(reason)`: `none` models the
`panic("no reason for success")`; otherwise the Bool reports whether this
call won the finalization CAS and performed the cleanup (`Disconnect`). -/
def FinalizeExchange (s : SessionS) (reason : Nat) :
    Option (SessionS × Bool) :=
  if reason = ReasonSuccess ∧ s.state ≠ StateEscrowPublished ∧
      s.state ≠ StateSolutionPublished then
    none
  else if s.finsema then some (s, false)
  else some ({ s with finsema := true, disconnected := true }, true)

/-! ## Protocol handlers (tumbler/constants.go, tumbler/puzzlesolver.go)

External calls — wallet operations, the `contract` builder, randomness-based
promise constructors and hash functions — are supplied through `Ext`.
Each handler returns the (possibly mutated) session together with a `Res`:
Go handlers mutate the session in place, so the session is returned on the
error paths as well. -/

instance : Monad Res where
  pure := Res.ok
  bind := fun x f =>
    match x with
    | .ok a => f a
    | .err e => .err e
    | .fault => .fault

/-- Oracle bundle for the external collaborators of the handlers. -/
structure Ext where
  contractNew : Except String Unit
  setReceiverAddress : Except String Unit
  setSenderAddress : Except String Unit
  createEscrow : Except String Unit
  publishEscrow : Except String Unit
  importEscrowScript : Except String Unit
  validateOffer1 : Except String Bool
  validateOffer2 : Except String Bool
  publishSolution : Except String Unit
  getExtAddress : Except String (String × String)
  marshalPubKey : Except String Bytes
  newPuzzlePromise : Nat → Bytes → Except String (Bytes × Bytes × Bytes)
  newSolutionPromise : Nat → Bytes → Except String (Bytes × Bytes × Bytes)
  blake : Bytes → Bytes → Bytes
  hashB : Bytes → Bytes
  pastDeadline : Bool

/-- Propagate a Go `if err != nil { return nil, err }` step. -/
def orErr {α β : Type} (s : SessionS) (x : Except String α)
    (k : α → SessionS × Res β) : SessionS × Res β :=
  match x with
  | .error e => (s, .err e)
  | .ok a => k a

/-- As `orErr` but wrapping the error text (`fmt.Errorf("...: %v", err)`). -/
def orErrW {α β : Type} (s : SessionS) (pre : String) (x : Except String α)
    (k : α → SessionS × Res β) : SessionS × Res β :=
  match x with
  | .error e => (s, .err (pre ++ e))
  | .ok a => k a

/-- Propagate a `Res`-valued subcomputation (loops that may fault). -/
def orRes {α β : Type} (s : SessionS) (x : Res α)
    (k : α → SessionS × Res β) : SessionS × Res β :=
  match x with
  | .err e => (s, .err e)
  | .fault => (s, .fault)
  | .ok a => k a

/-- As `orRes` but wrapping a returned error's text. -/
def orResW {α β : Type} (s : SessionS) (pre : String) (x : Res α)
    (k : α → SessionS × Res β) : SessionS × Res β :=
  match x with
  | .err e => (s, .err (pre ++ e))
  | .fault => (s, .fault)
  | .ok a => k a

/-- `FakeTxFormat(randomPad)`: hash of `"fakefakefake" ∥ pad`; the chain
hash itself (`chainhash.HashB`) is external and abstracted by `hashB`. -/
def FakeTxFormat (hashB : Bytes → Bytes) (randomPad : Bytes) : Bytes :=
  hashB ([102, 97, 107, 101, 102, 97, 107, 101, 102, 97, 107, 101] ++
    randomPad)

/-- The per-signature construction loops of `GetPuzzlePromises` /
`GetSolutionPromises`, collecting the three produced arrays. -/
def buildPromises (f : Nat → Bytes → Except String (Bytes × Bytes × Bytes)) :
    Nat → List Bytes → Except String (List Bytes × List Bytes × List Bytes)
  | _, [] => .ok ([], [], [])
  | i, x :: rest => do
    let (a, b, c) ← f i x
    let (as, bs, cs) ← buildPromises f (i + 1) rest
    pure (a :: as, b :: bs, c :: cs)

/-- `EscrowRequest`. -/
structure EscrowRequest where
  address : String
  publicKey : String
  amount : Int

/-- `Session.SetupEscrow`: the response's contract-derived fields come from
the external builder and are elided; the pair returned is
`(Epoch, LockTime)`. -/
def SetupEscrow (ext : Ext) (tb : TumblerS) (s : SessionS)
    (_er : EscrowRequest) : SessionS × Res (Int × Int) :=
  orErr s (ready s.state StateEscrowComplete) fun _ =>
  orErr s (getCurrentEpoch tb) fun epoch =>
  orErr s ext.contractNew fun _ =>
  let s := { s with hasContract := true }
  orErr s ext.setReceiverAddress fun _ =>
  orErr s ext.createEscrow fun _ =>
  ({ s with epoch := epoch, state := StateEscrowComplete },
    .ok (epoch, wrap32 (epoch + tb.epochDuration)))

/-- `SignatureChallenges`. -/
structure SignatureChallenges where
  fakeSetHash : Bytes
  realSetHash : Bytes
  transactionHashes : List Bytes
  signatures : List Bytes
  publicKey : Bytes

/-- `Session.GetPuzzlePromises`: returns
`(PublicKey, PuzzleKey, Puzzles, Promises)`. -/
def GetPuzzlePromises (ext : Ext) (tb : TumblerS) (s : SessionS)
    (cp : SignatureChallenges) :
    SessionS × Res (Bytes × Bytes × List Bytes × List Bytes) :=
  orErr s (ready s.state StatePuzzlesPromised) fun _ =>
  orErr s (getPuzzleKey tb s.epoch) fun _pk =>
  orErr s ext.marshalPubKey fun key =>
  orErr s (buildPromises ext.newPuzzlePromise 0 cp.signatures) fun pps =>
  ({ s with
      secrets := pps.2.2, realSetHash := cp.realSetHash,
      fakeSetHash := cp.fakeSetHash, txHashes := cp.transactionHashes,
      state := StatePuzzlesPromised },
    .ok (cp.publicKey, key, pps.1, pps.2.1))

/-- `TransactionDisclosure`. -/
structure TransactionDisclosure where
  fakeTxList : Bytes
  realTxList : Bytes
  randomPads : List Bytes
  salt : Bytes

/-- The fake-transaction structure check of `ValidatePuzzles` (note the
`idx > len(s.txHashes)` guard of the source: an index equal to the length
passes it and the subsequent access faults). -/
def fakeTxVerifyLoop (hashB : Bytes → Bytes)
    (txHashes randomPads : List Bytes) : List Int → Nat → Res Unit
  | [], _ => .ok ()
  | idx :: rest, i =>
    if idx > (txHashes.length : Int) then .err "bad tx reference"
    else do
      let pad ← arrGet randomPads (i : Int)
      if pad.length ≠ 32 then .err "bad input values"
      else do
        let th ← arrGet txHashes idx
        if FakeTxFormat hashB pad = th then
          fakeTxVerifyLoop hashB txHashes randomPads rest (i + 1)
        else .err "fake tx didn't verify"

/-- `fakeSecrets[i] = s.secrets[idx]`-style reveal loop without any bound
check (as in the fake-set reveal of `ValidatePuzzles` and the dead `hashes`
loop of `validateOffer`). -/
def revealSecrets (secrets : List Bytes) : List Int → Res (List Bytes)
  | [] => .ok []
  | idx :: rest => do
    let v ← arrGet secrets idx
    let vs ← revealSecrets secrets rest
    pure (v :: vs)

/-- Reveal loop guarded by the source's `idx > len(...)` check. -/
def revealSecretsChecked (msg : String) (secrets : List Bytes) :
    List Int → Res (List Bytes)
  | [] => .ok []
  | idx :: rest =>
    if idx > (secrets.length : Int) then .err msg
    else do
      let v ← arrGet secrets idx
      let vs ← revealSecretsChecked msg secrets rest
      pure (v :: vs)

/-- `Session.ValidatePuzzles`: returns `(fake secrets, quotients)`. -/
def ValidatePuzzles (ext : Ext) (tb : TumblerS) (s : SessionS)
    (cd : TransactionDisclosure) :
    SessionS × Res (List Bytes × List Bytes) :=
  orErr s (ready s.state StatePuzzlesValidated) fun _ =>
  orErrW s "failed to decode fake tx index list: "
      (DecodeIndexList cd.fakeTxList) fun fakeTxList =>
  orErrW s "failed to decode real tx index list: "
      (DecodeIndexList cd.realTxList) fun realTxList =>
  if fakeTxList.length > s.txHashes.length ∨
      realTxList.length > s.txHashes.length ∨
      cd.randomPads.length > s.txHashes.length ∨
      fakeTxList.length > cd.randomPads.length ∨
      cd.salt.length ≠ 32 then
    (s, .err "bad input values")
  else
  orErrW s "failed to obtain a puzzle key for epoch: "
      (getPuzzleKey tb s.epoch) fun pk =>
  orErrW s "failed to hash the fake tx list: "
      (HashIndexList ext.blake cd.salt fakeTxList) fun fakeSetHash =>
  if fakeSetHash ≠ s.fakeSetHash then (s, .err "fake set didn't verify")
  else
  orRes s (fakeTxVerifyLoop ext.hashB s.txHashes cd.randomPads fakeTxList 0)
      fun _ =>
  orErrW s "failed to hash the real tx list: "
      (HashIndexList ext.blake cd.salt realTxList) fun realSetHash =>
  if realSetHash ≠ s.realSetHash then (s, .err "real set didn't verify")
  else
  orRes s (revealSecrets s.secrets fakeTxList) fun fakeSecrets =>
  orRes s (revealSecretsChecked "bad tx reference" s.secrets realTxList)
      fun realSecrets =>
  orResW s "failed to generate quotients: "
      (Quotients pk.PublicKey realSecrets) fun quotients =>
  ({ s with
      puzzles := [], txHashes := [], realSetHash := [],
      fakeSetHash := [], state := StatePuzzlesValidated },
    .ok (fakeSecrets, quotients))

/-- `Session.FinalizeEscrow`: publish the escrow, latch the terminal state,
then (deferred) finalize with success. -/
def FinalizeEscrow (ext : Ext) (s : SessionS) : SessionS × Res Unit :=
  orErr s (ready s.state StateEscrowPublished) fun _ =>
  orErrW s "failed to publish escrow tx :" ext.publishEscrow fun _ =>
  match FinalizeExchange { s with state := StateEscrowPublished }
      ReasonSuccess with
  | some (s', _) => (s', .ok ())
  | none => ({ s with state := StateEscrowPublished }, .fault)

/-- `SolutionChallenges`. -/
structure SolutionChallenges where
  epoch : Int
  puzzles : List Bytes

/-- `Session.GetSolutionPromises`: returns `(Promises, KeyHashes)`. -/
def GetSolutionPromises (ext : Ext) (tb : TumblerS) (s : SessionS)
    (sc : SolutionChallenges) : SessionS × Res (List Bytes × List Bytes) :=
  orErr s (ready s.state StateSolutionsPromised) fun _ =>
  orErr s (getPuzzleKey tb sc.epoch) fun _pk =>
  orErr s (buildPromises ext.newSolutionPromise 0 sc.puzzles) fun sps =>
  ({ s with
      puzzles := sc.puzzles, solutions := sps.1, secrets := sps.2.2,
      epoch := sc.epoch, state := StateSolutionsPromised },
    .ok (sps.2.1, sps.2.2.map ext.hashB))

/-- `PuzzleDisclosure`. -/
structure PuzzleDisclosure where
  fakePuzzleList : Bytes
  fakeFactors : List Bytes

/-- The fake-puzzle verification loop of `ValidateSolutions` (again with the
source's `idx > len(s.puzzles)` guard). -/
def solutionsVerifyLoop (pub : PuzzlePubKey)
    (puzzles fakeFactors : List Bytes) : List Int → Nat → Res Unit
  | [], _ => .ok ()
  | idx :: rest, i =>
    if idx > (puzzles.length : Int) then .err "bad puzzle reference"
    else do
      let pz ← arrGet puzzles idx
      let f ← arrGet fakeFactors (i : Int)
      if ValidatePuzzle pub pz f then
        solutionsVerifyLoop pub puzzles fakeFactors rest (i + 1)
      else .err "puzzles didn't verify"

/-- `Session.ValidateSolutions`: returns the revealed fake-set secrets. -/
def ValidateSolutions (_ext : Ext) (tb : TumblerS) (s : SessionS)
    (pd : PuzzleDisclosure) : SessionS × Res (List Bytes) :=
  orErr s (ready s.state StateSolutionsValidated) fun _ =>
  orErrW s "failed to decode puzzle index list: "
      (DecodeIndexList pd.fakePuzzleList) fun fakePuzzleList =>
  if fakePuzzleList.length > s.puzzles.length then
    (s, .err "failed to decode puzzle index list: bad input values")
  else
  orErrW s "failed to obtain a puzzle key for epoch: "
      (getPuzzleKey tb s.epoch) fun pk =>
  orRes s (solutionsVerifyLoop pk.PublicKey s.puzzles pd.fakeFactors
      fakePuzzleList 0) fun _ =>
  orRes s (revealSecretsChecked "bad puzzle reference" s.secrets
      fakePuzzleList) fun secrets =>
  ({ s with state := StateSolutionsValidated }, .ok secrets)

/-- `PaymentOffer` request. -/
structure PaymentOfferReq where
  amount : Int
  publicKey : String
  escrowHash : Bytes
  escrowScript : Bytes
  escrowTx : Bytes
  puzzle : Bytes
  realPuzzleList : Bytes
  realFactors : List Bytes

/-- The blinded-puzzle verification loop of `RevealSolution`. -/
def blindedVerifyLoop (pub : PuzzlePubKey) (puzzles : List Bytes)
    (blinded : Bytes) (realFactors : List Bytes) : List Int → Nat → Res Unit
  | [], _ => .ok ()
  | idx :: rest, i =>
    if idx > (puzzles.length : Int) then .err "bad puzzle reference"
    else do
      let pz ← arrGet puzzles idx
      let f ← arrGet realFactors (i : Int)
      if ValidateBlindedPuzzle pub pz blinded f then
        blindedVerifyLoop pub puzzles blinded realFactors rest (i + 1)
      else .err "puzzles didn't verify"

/-- `Session.RevealSolution`: verify the blinding factors of the real set
and reveal the matching secrets (never sent to the client). -/
def RevealSolution (tb : TumblerS) (s : SessionS) (po : PaymentOfferReq) :
    Res (List Bytes) :=
  match getPuzzleKey tb s.epoch with
  | .error e => .err e
  | .ok pk => do
    _ ← blindedVerifyLoop pk.PublicKey s.puzzles po.puzzle po.realFactors
      s.realPuzzleList 0
    revealSecretsChecked "bad puzzle reference" s.secrets s.realPuzzleList

/-- `Session.PublishSolution`: publish the fulfilling transaction, latch the
terminal state, finalize with success. -/
def PublishSolution (ext : Ext) (s : SessionS) : SessionS × Res Unit :=
  orErrW s "failed to publish fulfilling tx :" ext.publishSolution fun _ =>
  match FinalizeExchange { s with state := StateSolutionPublished }
      ReasonSuccess with
  | some (s', _) => (s', .ok ())
  | none => ({ s with state := StateSolutionPublished }, .fault)

/-- Record an asynchronous error and finalize with *failed exchange*
(`s.err = ...; s.FinalizeExchange(ctx, ReasonFailedExchange, nil)`). -/
def failExchange (s : SessionS) (e : String) : SessionS × Res Unit :=
  match FinalizeExchange { s with err := some e } ReasonFailedExchange with
  | some (s', _) => (s', .ok ())
  | none => ({ s with err := some e }, .fault)

/-- `Session.validateOffer` (the continuation of `PaymentOffer`): failures
are latched in `s.err` and finalize the exchange rather than being returned.
The deferred re-scheduling branch simply returns (the timer rerun is outside
this sequential model). -/
def validateOffer (ext : Ext) (tb : TumblerS) (s : SessionS)
    (po : PaymentOfferReq) : SessionS × Res Unit :=
  match ready s.state StateSolutionPublished with
  | .error e => failExchange s e
  | .ok _ =>
  match ext.validateOffer2 with
  | .error e => failExchange s ("failed to validate offer tx: " ++ e)
  | .ok valid =>
  if !valid && (if s.deadlineSet then ext.pastDeadline else true) then
    failExchange s "offer tx wasn't confirmed after 900 seconds"
  else if !valid then
    (s, .ok ())
  else
  orRes s (revealSecrets s.puzzles s.realPuzzleList) fun _hashes =>
  match RevealSolution tb s po with
  | .fault => (s, .fault)
  | .err e => failExchange s e
  | .ok _secrets =>
  let s' := PublishSolution ext s
  match s'.2 with
  | .ok _ => (s'.1, .ok ())
  | .err e => failExchange s'.1 e
  | .fault => (s'.1, .fault)

/-- The bound-check loop over the decoded real-puzzle list in
`PaymentOffer`. -/
def checkRefsLoop (puzzles : List Bytes) : List Int → Res Unit
  | [] => .ok ()
  | idx :: rest =>
    if idx > (puzzles.length : Int) then .err "bad puzzle reference"
    else checkRefsLoop puzzles rest

/-- The tail of `Session.PaymentOffer` after `s.state = StateOfferReceived`
has been latched: call the wallet's offer validation, defer on an
unconfirmed offer, otherwise run the `validateOffer` continuation inline
and propagate the latched `s.err`. -/
def paymentOfferLatched (ext : Ext) (tb : TumblerS) (s : SessionS)
    (po : PaymentOfferReq) : SessionS × Res Unit :=
  orErrW s "failed to validate offer tx: " ext.validateOffer1 fun valid =>
  if !valid then ({ s with deadlineSet := true }, .ok ())
  else
    match validateOffer ext tb s po with
    | (s1, Res.fault) => (s1, .fault)
    | (s1, Res.err e) => (s1, .err e)
    | (s1, Res.ok _) =>
      match s1.err with
      | some e => (s1, .err e)
      | none => (s1, .ok ())

/-- The part of `Session.PaymentOffer` after `s.contract` has been set:
addresses, script import, then the state latch. -/
def paymentOfferContract (ext : Ext) (tb : TumblerS) (s : SessionS)
    (po : PaymentOfferReq) : SessionS × Res Unit :=
  orErr s ext.setSenderAddress fun _ =>
  orErrW s "failed to obtain an address for an epoch: "
      (getEpochAddress ext.getExtAddress tb s.epoch) fun _addr =>
  orErr s ext.setReceiverAddress fun _ =>
  orErrW s "failed to import offer script: " ext.importEscrowScript fun _ =>
  paymentOfferLatched ext tb { s with state := StateOfferReceived } po

/-- The part of `Session.PaymentOffer` after `s.realPuzzleList` has been
assigned the decoded list: bound checks, offer-shape checks and contract
creation. -/
def paymentOfferChecked (ext : Ext) (tb : TumblerS) (s : SessionS)
    (po : PaymentOfferReq) : SessionS × Res Unit :=
  if s.realPuzzleList.length > s.puzzles.length then
    (s, .err "failed to decode puzzle index list: bad input values")
  else if s.hasContract then (s, .err "conflicting offer tx")
  else
  orRes s (checkRefsLoop s.puzzles s.realPuzzleList) fun _ =>
  if po.escrowTx.length = 0 ∨ po.escrowScript.length = 0 ∨
      po.escrowHash.length = 0 then
    (s, .err "bad offer tx")
  else
  orErr s ext.contractNew fun _ =>
  paymentOfferContract ext tb { s with hasContract := true } po

/-- `Session.PaymentOffer`: note that `StateOfferReceived` is latched
*before* the wallet offer validation, so later failures return with the
state already advanced.  The handler is written as a chain of continuations,
one per in-place session mutation of the Go code. -/
def PaymentOffer (ext : Ext) (tb : TumblerS) (s : SessionS)
    (po : PaymentOfferReq) : SessionS × Res Unit :=
  orErr s (ready s.state StateOfferReceived) fun _ =>
  orErrW s "failed to decode puzzle index list: "
      (DecodeIndexList po.realPuzzleList) fun rpl =>
  paymentOfferChecked ext tb { s with realPuzzleList := rpl } po

/-! ## Auxiliary definitions for the statements below -/

/-- Run a sequence of `NewEpoch` offers (each generating some key `pk`),
keeping the previous state whenever a call errors — the shape of repeated
`createNewEpoch` ticks. -/
def runNewEpochs (pk : PuzzleKey) (tb : TumblerS) : List Int → TumblerS
  | [] => tb
  | h :: rest =>
    match NewEpoch (.ok pk) tb h with
    | .ok tb' => runNewEpochs pk tb' rest
    | .error _ => runNewEpochs pk tb rest

/-- A placeholder puzzle key for scenarios whose key material is never
consulted. -/
def trivialKey : PuzzleKey :=
  { rsakey := { n := 1, e := 1, d := 1, primes := [], precomputed := none },
    factor := 0, inverse := 0 }

/-- A 3-prime RSA key (primes 3, 5, 7; `N = 105`, `e = 5`, `d = 29`) with
stdlib-shaped precomputed CRT values and blinding pair `(2, 53)`. -/
def exampleKey : PuzzleKey :=
  { rsakey :=
      { n := 105, e := 5, d := 29, primes := [3, 5, 7],
        precomputed := some
          { dp := 1, dq := 1, qinv := 2,
            crtValues := [{ exp := 5, coeff := 1, r := 15 }] } },
    factor := 2, inverse := 53 }

/-- An oracle bundle whose external calls all succeed. -/
def okExt : Ext :=
  { contractNew := .ok (), setReceiverAddress := .ok (),
    setSenderAddress := .ok (), createEscrow := .ok (),
    publishEscrow := .ok (), importEscrowScript := .ok (),
    validateOffer1 := .ok true, validateOffer2 := .ok true,
    publishSolution := .ok (), getExtAddress := .ok ("addr", "pub"),
    marshalPubKey := .ok [1], newPuzzlePromise := fun _ _ => .ok ([1], [1], [1]),
    newSolutionPromise := fun _ _ => .ok ([1], [1], [1]),
    blake := fun _ _ => [0], hashB := fun _ => [0], pastDeadline := false }

/-- A tumbler holding a single epoch at height 5 with an allocated
address. -/
def exampleTumbler : TumblerS :=
  { lastEpoch := 5,
    epochs := [{ address := "addr", pubkey := "pub", blockHeight := 5,
                 puzzleKey := trivialKey }],
    epochDuration := 10 }

/-- A payer-chain session about to submit a payment offer
(`StateSolutionsValidated`). -/
def offerSession : SessionS :=
  { newSession "client" with state := StateSolutionsValidated, epoch := 5 }

/-- A non-empty payment offer whose real-puzzle list is empty. -/
def examplePaymentOffer : PaymentOfferReq :=
  { amount := 1, publicKey := "pk", escrowHash := [1], escrowScript := [1],
    escrowTx := [1], puzzle := [1], realPuzzleList := [], realFactors := [] }

/-- An oracle bundle whose contract construction fails. -/
def badContractExt : Ext := { okExt with contractNew := .error "no utxos" }

/-- An oracle bundle whose wallet offer validation fails. -/
def offerFailExt : Ext :=
  { okExt with validateOffer1 := .error "wallet rpc failed" }

/-- A payer-chain session holding exactly one puzzle and one secret, about
to run `ValidateSolutions`. -/
def solutionsSession : SessionS :=
  { newSession "client" with
      state := StateSolutionsPromised, epoch := 5,
      puzzles := [[2]], secrets := [[3]] }

/-- A disclosure whose decoded fake-puzzle index list is `[1]` — equal to
the length of `solutionsSession.puzzles`. -/
def oobDisclosure : PuzzleDisclosure :=
  { fakePuzzleList := [1, 0], fakeFactors := [[1]] }

/-- A handler result in which every returned error leaves the session's
state field as it was on entry. -/
def ErrKeepsState {β : Type} (s0 : SessionS) (r : SessionS × Res β) : Prop :=
  ∀ e, r.2 = Res.err e → r.1.state = s0.state

/-- Equality of embedded Go results is decidable. -/
instance instDecEqExcept {ε α : Type} [DecidableEq ε] [DecidableEq α] :
    DecidableEq (Except ε α) := fun x y =>
  match x, y with
  | .ok a, .ok b =>
    decidable_of_iff (a = b) ⟨fun h => h ▸ rfl, fun h => Except.ok.inj h⟩
  | .error e, .error f =>
    decidable_of_iff (e = f) ⟨fun h => h ▸ rfl, fun h => Except.error.inj h⟩
  | .ok _, .error _ => .isFalse (fun h => Except.noConfusion h)
  | .error _, .ok _ => .isFalse (fun h => Except.noConfusion h)

/-! ## Theorems -/

/-- C1: `ready(next)` permits exactly the two chains: from `Initial` only
`EscrowComplete` or `SolutionsPromised`; `EscrowPublished` and
`SolutionPublished` are terminal for every requested `next`; from every
other protocol state `ready(next)` succeeds iff `next` is the numeric (and
chain) successor, failing with the not-ready error otherwise. -/
theorem C1_ready_transitions (state next : Nat)
    (hs : state ∈ [StateInitial, StateEscrowComplete, StatePuzzlesPromised,
      StatePuzzlesValidated, StateEscrowPublished, StateSolutionsPromised,
      StateSolutionsValidated, StateOfferReceived, StateSolutionPublished])
    (hn : next ≤ MaxPayerState) :
    (state = StateInitial →
      (ready state next = .ok () ↔
        (next = StateEscrowComplete ∨ next = StateSolutionsPromised)) ∧
      (¬(next = StateEscrowComplete ∨ next = StateSolutionsPromised) →
        ready state next = .error (notReadyMsg next state))) ∧
    ((state = StateEscrowPublished ∨ state = StateSolutionPublished) →
      ready state next = .error
        ("cannot advance past the final stage: requested " ++
          stateNames.getD next "")) ∧
    (state ≠ StateInitial ∧ state ≠ StateEscrowPublished ∧
        state ≠ StateSolutionPublished →
      (ready state next = .ok () ↔ next = state + 1) ∧
      (next ≠ state + 1 →
        ready state next = .error (notReadyMsg next state))) := by
  fin_cases hs <;> (refine ⟨?_, ?_, ?_⟩ <;> (revert hn; revert next; decide))

/-- Witness for C1 at a concrete state and request. -/
theorem C1_ready_transitions_witness :
    ready StatePuzzlesPromised StatePuzzlesValidated = .ok () :=
  ((C1_ready_transitions StatePuzzlesPromised StatePuzzlesValidated
    (by decide) (by decide)).2.2 (by decide)).1.mpr (by decide)

theorem encodeIndexList_err (l : List Int) (h : ∃ i ∈ l, i < 0 ∨ i > 65535) :
    EncodeIndexList l = .error "index out of bounds" := by
  induction l with
  | nil => simp at h
  | cons i rest ih =>
    by_cases hi : i < 0 ∨ i > 65535
    · simp only [EncodeIndexList]
      rw [if_pos (by simpa using hi)]
    · obtain ⟨j, hj, hjr⟩ := h
      rcases List.mem_cons.mp hj with hj | hj
      · subst hj; exact absurd hjr hi
      · simp only [EncodeIndexList]
        rw [if_neg (by simpa using hi), ih ⟨j, hj, hjr⟩]
        rfl

/-- C7: the index-list codec round-trips for values in `[0, 65535]`, errors
on any out-of-range entry (in particular on `[-1]` and `[65536]`), and
decoding fails exactly on odd-length byte strings. -/
theorem C7_index_list_codec :
    (∀ l : List Int, (∀ i ∈ l, 0 ≤ i ∧ i ≤ 65535) →
      ∃ bs, EncodeIndexList l = .ok bs ∧ DecodeIndexList bs = .ok l) ∧
    (∀ l : List Int, (∃ i ∈ l, i < 0 ∨ i > 65535) →
      EncodeIndexList l = .error "index out of bounds") ∧
    EncodeIndexList [-1] = .error "index out of bounds" ∧
    EncodeIndexList [65536] = .error "index out of bounds" ∧
    (∀ bs : Bytes, (∃ e, DecodeIndexList bs = .error e) ↔
      bs.length % 2 = 1) := by
  refine ⟨fun l h => ?_, encodeIndexList_err, by decide, by decide,
    fun bs => ?_⟩
  · obtain ⟨bs, h1, h2, _⟩ := encodeIndexList_sound l h
    exact ⟨bs, h1, h2⟩
  · constructor
    · rintro ⟨e, he⟩
      simp only [DecodeIndexList] at he
      by_cases hl : bs.length % 2 ≠ 0
      · omega
      · rw [if_neg hl] at he; exact absurd he (by simp)
    · intro hl
      refine ⟨"bad list length", ?_⟩
      simp only [DecodeIndexList]
      rw [if_pos (by omega)]

/-- Witness for C7: the round-trip instantiated at `[0, 7, 65535]`. -/
theorem C7_index_list_codec_witness :
    ∃ bs, EncodeIndexList [(0 : Int), 7, 65535] = .ok bs ∧
      DecodeIndexList bs = .ok [(0 : Int), 7, 65535] :=
  C7_index_list_codec.1 [0, 7, 65535] (by decide)

/-- The claim-C4 invariant: epoch block heights strictly increase. -/
def epochsIncreasing : List EpochS → Bool
  | [] => true
  | [_] => true
  | e1 :: e2 :: rest =>
    decide (e1.blockHeight < e2.blockHeight) && epochsIncreasing (e2 :: rest)

theorem epochsIncreasing_tail {e : EpochS} {l : List EpochS}
    (h : epochsIncreasing (e :: l) = true) : epochsIncreasing l = true := by
  cases l with
  | nil => rfl
  | cons b t =>
    simp only [epochsIncreasing, Bool.and_eq_true] at h
    exact h.2

theorem epochsIncreasing_drop (n : Nat) (l : List EpochS)
    (h : epochsIncreasing l = true) : epochsIncreasing (l.drop n) = true := by
  induction n generalizing l with
  | zero => simpa using h
  | succ n ih =>
    cases l with
    | nil => exact h
    | cons a t => exact ih t (epochsIncreasing_tail h)

theorem epochsIncreasing_lt_of_last {l : List EpochS} {m : EpochS} {h : Int}
    (hinc : epochsIncreasing l = true) (hl : l.getLast? = some m)
    (hm : m.blockHeight < h) : ∀ x ∈ l, x.blockHeight < h := by
  induction l with
  | nil => intro x hx; simp at hx
  | cons a t ih =>
    intro x hx
    cases t with
    | nil =>
      simp only [List.getLast?_singleton, Option.some.injEq] at hl
      rcases List.mem_cons.mp hx with hx | hx
      · subst hx; rw [hl]; exact hm
      · simp at hx
    | cons b t' =>
      rw [List.getLast?_cons_cons] at hl
      simp only [epochsIncreasing, Bool.and_eq_true, decide_eq_true_eq]
        at hinc
      rcases List.mem_cons.mp hx with hx | hx
      · subst hx
        exact lt_trans hinc.1 (ih hinc.2 hl b (List.mem_cons_self ..))
      · exact ih hinc.2 hl x hx

theorem epochsIncreasing_append {l : List EpochS} {e : EpochS}
    (hinc : epochsIncreasing l = true)
    (hall : ∀ x ∈ l, x.blockHeight < e.blockHeight) :
    epochsIncreasing (l ++ [e]) = true := by
  induction l with
  | nil => rfl
  | cons a t ih =>
    cases t with
    | nil =>
      simp only [List.cons_append, List.nil_append, epochsIncreasing,
        Bool.and_eq_true, decide_eq_true_eq]
      exact ⟨hall a (List.mem_cons_self ..), trivial⟩
    | cons b t' =>
      simp only [epochsIncreasing, Bool.and_eq_true, decide_eq_true_eq]
        at hinc
      simp only [List.cons_append, epochsIncreasing, Bool.and_eq_true,
        decide_eq_true_eq]
      refine ⟨hinc.1, ?_⟩
      have := ih hinc.2 (fun x hx => hall x (List.mem_cons_of_mem _ hx))
      simpa using this

theorem newEpoch_ok_elim {tb tb' : TumblerS} {pk : PuzzleKey} {h : Int}
    (hok : NewEpoch (.ok pk) tb h = .ok tb') :
    (∀ e, tb.epochs.getLast? = some e → e.blockHeight < h) ∧
    ∃ n, tb'.epochs = tb.epochs.drop n ++
      [{ address := "", pubkey := "", blockHeight := h, puzzleKey := pk }] := by
  unfold NewEpoch at hok
  rcases hg : tb.epochs.getLast? with _ | m <;> rw [hg] at hok
  · rw [if_neg (by simp)] at hok
    refine ⟨fun e he => absurd he (by simp), ?_⟩
    exact ⟨_, congrArg TumblerS.epochs (Except.ok.inj hok).symm⟩
  · by_cases hge : m.blockHeight ≥ h
    · rw [if_pos (by simpa using hge)] at hok
      exact absurd hok (by simp)
    · rw [if_neg (by simpa using hge)] at hok
      refine ⟨fun e he => ?_, ?_⟩
      · rw [← Option.some.inj he]
        omega
      · exact ⟨_, congrArg TumblerS.epochs (Except.ok.inj hok).symm⟩

/-- C4: `NewEpoch(h)` succeeds exactly when the epoch list is empty or `h`
strictly exceeds the latest height, errors with *bad block height*
otherwise (the embedding returns no new state on error, so the list is
unchanged), and any sequence of `NewEpoch` calls preserves strictly
increasing block heights. -/
theorem C4_epoch_monotonicity :
    (∀ (tb : TumblerS) (pk : PuzzleKey) (h : Int),
      (∃ tb', NewEpoch (.ok pk) tb h = .ok tb') ↔
        (tb.epochs = [] ∨
          ∃ e, tb.epochs.getLast? = some e ∧ e.blockHeight < h)) ∧
    (∀ (tb : TumblerS) (kg : Except String PuzzleKey) (h : Int) (e : EpochS),
      tb.epochs.getLast? = some e → h ≤ e.blockHeight →
      NewEpoch kg tb h = .error "bad block height") ∧
    (∀ (tb : TumblerS) (pk : PuzzleKey) (hs : List Int),
      epochsIncreasing tb.epochs = true →
      epochsIncreasing (runNewEpochs pk tb hs).epochs = true) := by
  refine ⟨fun tb pk h => ?_, fun tb kg h e hl hle => ?_, fun tb pk hs => ?_⟩
  · constructor
    · rintro ⟨tb', hok⟩
      rcases hg : tb.epochs.getLast? with _ | m
      · refine Or.inl ?_
        cases htb : tb.epochs with
        | nil => rfl
        | cons a t =>
          rw [htb, List.getLast?_eq_getLast_of_ne_nil (by simp)] at hg
          exact absurd hg (by simp)
      · exact Or.inr ⟨m, rfl, (newEpoch_ok_elim hok).1 m hg⟩
    · intro hcond
      unfold NewEpoch
      rcases hg : tb.epochs.getLast? with _ | m
      · rw [if_neg (by simp)]
        exact ⟨_, rfl⟩
      · have hlt : m.blockHeight < h := by
          rcases hcond with hnil | ⟨e, he, hlt⟩
          · rw [hnil] at hg; exact absurd hg (by simp)
          · rw [hg] at he; rw [Option.some.inj he]; exact hlt
        rw [if_neg (by simpa using not_le.mpr hlt)]
        exact ⟨_, rfl⟩
  · unfold NewEpoch
    rw [hl, if_pos (by simpa using hle)]
  · induction hs generalizing tb with
    | nil => exact fun h => h
    | cons h rest ih =>
      intro hinc
      unfold runNewEpochs
      rcases hE : NewEpoch (.ok pk) tb h with e | tb'
      · exact ih tb hinc
      · apply ih
        obtain ⟨hlast, n, heq⟩ := newEpoch_ok_elim hE
        rw [heq]
        apply epochsIncreasing_append (epochsIncreasing_drop n _ hinc)
        intro x hx
        have hx' : x ∈ tb.epochs := List.mem_of_mem_drop hx
        cases htb : tb.epochs with
        | nil => rw [htb] at hx'; simp at hx'
        | cons a t =>
          rcases hg : tb.epochs.getLast? with _ | m
          · rw [htb, List.getLast?_eq_getLast_of_ne_nil (by simp)] at hg
            exact absurd hg (by simp)
          · exact epochsIncreasing_lt_of_last hinc hg (hlast m hg) x hx'

/-- Witness for C4 at a concrete tumbler and height. -/
theorem C4_epoch_monotonicity_witness :
    ∃ tb', NewEpoch (.ok trivialKey)
      { lastEpoch := 3,
        epochs := [{
          address := "", pubkey := "", blockHeight := 3,
          puzzleKey := trivialKey }],
        epochDuration := 10 }
      7 = .ok tb' :=
  (C4_epoch_monotonicity.1 _ trivialKey 7).mpr
    (Or.inr ⟨_, rfl, by decide⟩)

/-- C10: `getCurrentEpoch` errors exactly when the published `lastEpoch` is
0; `NewEpoch(0)` nevertheless succeeds on an empty tumbler (leaving
`lastEpoch = 0` with a live epoch), and `SetupEscrow` then fails with
*no current epoch* leaving the session untouched. -/
theorem C10_height_zero_epoch_unusable :
    (∀ tb : TumblerS,
      getCurrentEpoch tb = .error "no current epoch" ↔ tb.lastEpoch = 0) ∧
    (∀ pk : PuzzleKey, ∃ tb',
      NewEpoch (.ok pk) { lastEpoch := 0, epochs := [], epochDuration := 10 }
        0 = .ok tb' ∧ tb'.lastEpoch = 0 ∧ tb'.epochs ≠ []) ∧
    (∀ (ext : Ext) (tb : TumblerS) (s : SessionS) (er : EscrowRequest),
      tb.lastEpoch = 0 → s.state = StateInitial →
      (SetupEscrow ext tb s er).2 = .err "no current epoch" ∧
      (SetupEscrow ext tb s er).1 = s) := by
  refine ⟨fun tb => ?_, fun pk => ?_, fun ext tb s er h0 hstate => ?_⟩
  · unfold getCurrentEpoch
    by_cases h : tb.lastEpoch = 0
    · simp [h]
    · simp [h]
  · refine ⟨{
      lastEpoch := 0,
      epochs := [{
        address := "", pubkey := "", blockHeight := 0,
        puzzleKey := pk }],
      epochDuration := 10 }, rfl, rfl, by simp⟩
  · have hr : ready s.state StateEscrowComplete = .ok () := by
      rw [hstate]; decide
    have hc : getCurrentEpoch tb = .error "no current epoch" := by
      unfold getCurrentEpoch; simp [h0]
    constructor
    · simp [SetupEscrow, orErr, hr, hc]
    · simp [SetupEscrow, orErr, hr, hc]

/-- Witness for C10 at a concrete zero-height tumbler. -/
theorem C10_height_zero_epoch_unusable_witness :
    (SetupEscrow okExt { lastEpoch := 0, epochs := [], epochDuration := 10 }
      (newSession "w") { address := "a", publicKey := "p", amount := 1 }).2 =
      .err "no current epoch" :=
  (C10_height_zero_epoch_unusable.2.2 okExt _ _ _ rfl rfl).1

/-- C8: finalization is one-shot and guarded: with the semaphore already
taken every non-panicking call returns without cleanup; the cleanup winner
takes the semaphore (so `Disconnect` runs at most once); a success reason in
a non-terminal state panics; any non-success reason returns from any
state. -/
theorem C8_finalize_once :
    (∀ (s : SessionS) (r : Nat) (s' : SessionS) (b : Bool),
      s.finsema = true → FinalizeExchange s r = some (s', b) →
      b = false ∧ s' = s) ∧
    (∀ (s : SessionS) (r : Nat) (s' : SessionS),
      FinalizeExchange s r = some (s', true) →
      s.finsema = false ∧ s'.finsema = true) ∧
    (∀ s : SessionS, s.state ≠ StateEscrowPublished →
      s.state ≠ StateSolutionPublished →
      FinalizeExchange s ReasonSuccess = none) ∧
    (∀ (s : SessionS) (r : Nat), r ≠ ReasonSuccess →
      ∃ s' b, FinalizeExchange s r = some (s', b)) := by
  refine ⟨fun s r s' b hf h => ?_, fun s r s' h => ?_,
    fun s h1 h2 => ?_, fun s r hr => ?_⟩
  · unfold FinalizeExchange at h
    by_cases hA : r = ReasonSuccess ∧ s.state ≠ StateEscrowPublished ∧
        s.state ≠ StateSolutionPublished
    · rw [if_pos hA] at h; exact absurd h (by simp)
    · rw [if_neg hA, if_pos hf] at h
      have h1 := congrArg Prod.fst (Option.some.inj h)
      have h2 := congrArg Prod.snd (Option.some.inj h)
      exact ⟨h2.symm, h1.symm⟩
  · unfold FinalizeExchange at h
    by_cases hA : r = ReasonSuccess ∧ s.state ≠ StateEscrowPublished ∧
        s.state ≠ StateSolutionPublished
    · rw [if_pos hA] at h; exact absurd h (by simp)
    · rw [if_neg hA] at h
      by_cases hf : s.finsema
      · rw [if_pos hf] at h
        have h2 := congrArg Prod.snd (Option.some.inj h)
        simp at h2
      · rw [if_neg hf] at h
        have h1 := congrArg Prod.fst (Option.some.inj h)
        simp only [Prod.fst] at h1
        refine ⟨by simpa using hf, ?_⟩
        rw [← h1]
  · unfold FinalizeExchange
    rw [if_pos ⟨rfl, h1, h2⟩]
  · unfold FinalizeExchange
    rw [if_neg (by simp [hr])]
    by_cases hf : s.finsema
    · rw [if_pos hf]; exact ⟨_, _, rfl⟩
    · rw [if_neg hf]; exact ⟨_, _, rfl⟩

/-- Witness for C8: a second finalization returns and performs no
cleanup. -/
theorem C8_finalize_once_witness :
    FinalizeExchange { newSession "w" with finsema := true }
      ReasonSessionExpired = some ({ newSession "w" with finsema := true },
        false) := by
  obtain ⟨s', b, hb⟩ := C8_finalize_once.2.2.2
    { newSession "w" with finsema := true } ReasonSessionExpired (by decide)
  obtain ⟨h1, h2⟩ := C8_finalize_once.1
    { newSession "w" with finsema := true } ReasonSessionExpired s' b rfl hb
  rw [hb, h1, h2]

theorem errKeepsState_orErr {α β : Type} {s0 s : SessionS}
    {x : Except String α} {k : α → SessionS × Res β}
    (hs : s.state = s0.state) (hk : ∀ a, ErrKeepsState s0 (k a)) :
    ErrKeepsState s0 (orErr s x k) := by
  cases x with
  | error e => exact fun _ _ => hs
  | ok a => exact hk a

theorem errKeepsState_orErrW {α β : Type} {s0 s : SessionS} {pre : String}
    {x : Except String α} {k : α → SessionS × Res β}
    (hs : s.state = s0.state) (hk : ∀ a, ErrKeepsState s0 (k a)) :
    ErrKeepsState s0 (orErrW s pre x k) := by
  cases x with
  | error e => exact fun _ _ => hs
  | ok a => exact hk a

theorem errKeepsState_orRes {α β : Type} {s0 s : SessionS}
    {x : Res α} {k : α → SessionS × Res β}
    (hs : s.state = s0.state) (hk : ∀ a, ErrKeepsState s0 (k a)) :
    ErrKeepsState s0 (orRes s x k) := by
  cases x with
  | err e => exact fun _ _ => hs
  | fault => exact fun _ h => Res.noConfusion h
  | ok a => exact hk a

theorem errKeepsState_orResW {α β : Type} {s0 s : SessionS} {pre : String}
    {x : Res α} {k : α → SessionS × Res β}
    (hs : s.state = s0.state) (hk : ∀ a, ErrKeepsState s0 (k a)) :
    ErrKeepsState s0 (orResW s pre x k) := by
  cases x with
  | err e => exact fun _ _ => hs
  | fault => exact fun _ h => Res.noConfusion h
  | ok a => exact hk a

theorem errKeepsState_ok {β : Type} (s0 s' : SessionS) (v : β) :
    ErrKeepsState s0 ((s', Res.ok v) : SessionS × Res β) :=
  fun _ h => Res.noConfusion h

theorem errKeepsState_err {β : Type} {s0 s' : SessionS}
    (hs : s'.state = s0.state) (e0 : String) :
    ErrKeepsState s0 ((s', Res.err e0) : SessionS × Res β) :=
  fun _ _ => hs

theorem errKeepsState_fault {β : Type} (s0 s' : SessionS) :
    ErrKeepsState s0 ((s', Res.fault) : SessionS × Res β) :=
  fun _ h => Res.noConfusion h

theorem setupEscrow_err_state (ext : Ext) (tb : TumblerS) (s : SessionS)
    (er : EscrowRequest) : ErrKeepsState s (SetupEscrow ext tb s er) := by
  unfold SetupEscrow
  apply errKeepsState_orErr rfl; intro _
  apply errKeepsState_orErr rfl; intro _
  apply errKeepsState_orErr rfl; intro _
  apply errKeepsState_orErr rfl; intro _
  apply errKeepsState_orErr rfl; intro _
  exact errKeepsState_ok _ _ _

theorem getPuzzlePromises_err_state (ext : Ext) (tb : TumblerS)
    (s : SessionS) (cp : SignatureChallenges) :
    ErrKeepsState s (GetPuzzlePromises ext tb s cp) := by
  unfold GetPuzzlePromises
  apply errKeepsState_orErr rfl; intro _
  apply errKeepsState_orErr rfl; intro _
  apply errKeepsState_orErr rfl; intro _
  apply errKeepsState_orErr rfl; intro _
  exact errKeepsState_ok _ _ _

theorem validatePuzzles_err_state (ext : Ext) (tb : TumblerS) (s : SessionS)
    (cd : TransactionDisclosure) :
    ErrKeepsState s (ValidatePuzzles ext tb s cd) := by
  unfold ValidatePuzzles
  apply errKeepsState_orErr rfl; intro _
  apply errKeepsState_orErrW rfl; intro _
  apply errKeepsState_orErrW rfl; intro _
  split
  · exact errKeepsState_err rfl _
  apply errKeepsState_orErrW rfl; intro _
  apply errKeepsState_orErrW rfl; intro _
  split
  · exact errKeepsState_err rfl _
  apply errKeepsState_orRes rfl; intro _
  apply errKeepsState_orErrW rfl; intro _
  split
  · exact errKeepsState_err rfl _
  apply errKeepsState_orRes rfl; intro _
  apply errKeepsState_orRes rfl; intro _
  apply errKeepsState_orResW rfl; intro _
  exact errKeepsState_ok _ _ _

theorem finalizeEscrow_err_state (ext : Ext) (s : SessionS) :
    ErrKeepsState s (FinalizeEscrow ext s) := by
  unfold FinalizeEscrow
  apply errKeepsState_orErr rfl; intro _
  apply errKeepsState_orErrW rfl; intro _
  cases FinalizeExchange { s with state := StateEscrowPublished }
      ReasonSuccess with
  | none => exact errKeepsState_fault _ _
  | some p => exact errKeepsState_ok _ _ _

theorem getSolutionPromises_err_state (ext : Ext) (tb : TumblerS)
    (s : SessionS) (sc : SolutionChallenges) :
    ErrKeepsState s (GetSolutionPromises ext tb s sc) := by
  unfold GetSolutionPromises
  apply errKeepsState_orErr rfl; intro _
  apply errKeepsState_orErr rfl; intro _
  apply errKeepsState_orErr rfl; intro _
  exact errKeepsState_ok _ _ _

theorem validateSolutions_err_state (ext : Ext) (tb : TumblerS)
    (s : SessionS) (pd : PuzzleDisclosure) :
    ErrKeepsState s (ValidateSolutions ext tb s pd) := by
  unfold ValidateSolutions
  apply errKeepsState_orErr rfl; intro _
  apply errKeepsState_orErrW rfl; intro _
  split
  · exact errKeepsState_err rfl _
  apply errKeepsState_orErrW rfl; intro _
  apply errKeepsState_orRes rfl; intro _
  apply errKeepsState_orRes rfl; intro _
  exact errKeepsState_ok _ _ _

theorem finalizeExchange_pres {s : SessionS} {r : Nat} {s' : SessionS}
    {b : Bool} (h : FinalizeExchange s r = some (s', b)) :
    s'.state = s.state ∧ s'.err = s.err := by
  unfold FinalizeExchange at h
  by_cases hA : r = ReasonSuccess ∧ s.state ≠ StateEscrowPublished ∧
      s.state ≠ StateSolutionPublished
  · rw [if_pos hA] at h; exact absurd h (by simp)
  · rw [if_neg hA] at h
    by_cases hf : s.finsema
    · rw [if_pos hf] at h
      have h1 := congrArg Prod.fst (Option.some.inj h)
      simp only [Prod.fst] at h1
      rw [← h1]
      exact ⟨rfl, rfl⟩
    · rw [if_neg hf] at h
      have h1 := congrArg Prod.fst (Option.some.inj h)
      simp only [Prod.fst] at h1
      rw [← h1]
      exact ⟨rfl, rfl⟩

theorem failExchange_state (s : SessionS) (e : String) :
    (failExchange s e).1.state = s.state := by
  unfold failExchange
  cases hF : FinalizeExchange { s with err := some e }
      ReasonFailedExchange with
  | none => rfl
  | some p =>
    obtain ⟨s', b⟩ := p
    exact (finalizeExchange_pres hF).1

/-- `validateOffer` either leaves the state alone, or has just published the
solution — and in the latter case it has not touched `s.err` and does not
return a `Res.err`. -/
theorem validateOffer_spec (ext : Ext) (tb : TumblerS) (s : SessionS)
    (po : PaymentOfferReq) :
    (validateOffer ext tb s po).1.state = s.state ∨
    ((validateOffer ext tb s po).1.state = StateSolutionPublished ∧
     (validateOffer ext tb s po).1.err = s.err ∧
     ∀ e, (validateOffer ext tb s po).2 ≠ Res.err e) := by
  unfold validateOffer
  cases ready s.state StateSolutionPublished with
  | error e => exact Or.inl (failExchange_state s e)
  | ok _ =>
  cases ext.validateOffer2 with
  | error e => exact Or.inl (failExchange_state s _)
  | ok valid =>
  generalize (if s.deadlineSet then ext.pastDeadline else true) = pd
  cases valid with
  | false =>
    simp only [Bool.not_false, Bool.true_and]
    cases pd with
    | true => rw [if_pos rfl]; exact Or.inl (failExchange_state s _)
    | false => rw [if_neg (by simp), if_pos trivial]; exact Or.inl rfl
  | true =>
  simp only [Bool.not_true, Bool.false_and]
  rw [if_neg (by simp), if_neg (by simp)]
  cases revealSecrets s.puzzles s.realPuzzleList with
  | err e => exact Or.inl rfl
  | fault => exact Or.inl rfl
  | ok _ =>
  simp only [orRes]
  cases RevealSolution tb s po with
  | fault => exact Or.inl rfl
  | err e => exact Or.inl (failExchange_state s e)
  | ok secrets =>
  simp only []
  unfold PublishSolution orErrW
  cases ext.publishSolution with
  | error e => exact Or.inl (failExchange_state s _)
  | ok _ =>
  cases hF : FinalizeExchange { s with state := StateSolutionPublished }
      ReasonSuccess with
  | none => exact Or.inr ⟨rfl, rfl, fun e h => Res.noConfusion h⟩
  | some p =>
    obtain ⟨s', b⟩ := p
    have hp := finalizeExchange_pres hF
    exact Or.inr ⟨hp.1, hp.2, fun e h => Res.noConfusion h⟩

theorem paymentOfferLatched_err_state (ext : Ext) (tb : TumblerS)
    (s : SessionS) (po : PaymentOfferReq) (herr : s.err = none) :
    ErrKeepsState s (paymentOfferLatched ext tb s po) := by
  unfold paymentOfferLatched
  apply errKeepsState_orErrW rfl; intro valid
  cases valid with
  | false =>
    rw [if_pos (show (!false) = true from rfl)]
    exact errKeepsState_ok _ _ _
  | true =>
    rw [if_neg (by simp)]
    rcases hspec : validateOffer ext tb s po with ⟨s1, r⟩
    have hv := validateOffer_spec ext tb s po
    rw [hspec] at hv
    cases r with
    | fault => exact errKeepsState_fault _ _
    | err e1 =>
      show ErrKeepsState s (s1, Res.err e1)
      rcases hv with hL | ⟨hS, hE, hNE⟩
      · exact errKeepsState_err hL _
      · exact absurd rfl (hNE e1)
    | ok u =>
      show ErrKeepsState s
        (match s1.err with
         | some e => (s1, Res.err e)
         | none => (s1, Res.ok ()))
      cases hoe : s1.err with
      | some e2 =>
        rcases hv with hL | ⟨hS, hE, hNE⟩
        · exact errKeepsState_err hL _
        · have hnone : s1.err = none := hE.trans herr
          rw [hoe] at hnone
          exact absurd hnone (by simp)
      | none => exact errKeepsState_ok _ _ _

theorem paymentOfferContract_err_state (ext : Ext) (tb : TumblerS)
    (s : SessionS) (po : PaymentOfferReq) (herr : s.err = none) :
    ∀ e, (paymentOfferContract ext tb s po).2 = Res.err e →
      (paymentOfferContract ext tb s po).1.state = s.state ∨
      (paymentOfferContract ext tb s po).1.state = StateOfferReceived := by
  unfold paymentOfferContract
  cases ext.setSenderAddress with
  | error e1 => exact fun e h => Or.inl rfl
  | ok u1 =>
  cases getEpochAddress ext.getExtAddress tb s.epoch with
  | error e1 => exact fun e h => Or.inl rfl
  | ok addr =>
  cases ext.setReceiverAddress with
  | error e1 => exact fun e h => Or.inl rfl
  | ok u2 =>
  cases ext.importEscrowScript with
  | error e1 => exact fun e h => Or.inl rfl
  | ok u3 =>
  intro e h
  exact Or.inr (paymentOfferLatched_err_state ext tb
    { s with state := StateOfferReceived } po herr e h)

theorem paymentOfferChecked_err_state (ext : Ext) (tb : TumblerS)
    (s : SessionS) (po : PaymentOfferReq) (herr : s.err = none) :
    ∀ e, (paymentOfferChecked ext tb s po).2 = Res.err e →
      (paymentOfferChecked ext tb s po).1.state = s.state ∨
      (paymentOfferChecked ext tb s po).1.state = StateOfferReceived := by
  unfold paymentOfferChecked
  by_cases h1 : s.realPuzzleList.length > s.puzzles.length
  · rw [if_pos h1]; exact fun e h => Or.inl rfl
  rw [if_neg h1]
  by_cases h2 : s.hasContract = true
  · rw [if_pos h2]; exact fun e h => Or.inl rfl
  rw [if_neg h2]
  cases checkRefsLoop s.puzzles s.realPuzzleList with
  | err e1 => exact fun e h => Or.inl rfl
  | fault => exact fun e h => Res.noConfusion h
  | ok u1 =>
  by_cases h3 : po.escrowTx.length = 0 ∨ po.escrowScript.length = 0 ∨
      po.escrowHash.length = 0
  · rw [if_pos h3]; exact fun e h => Or.inl rfl
  rw [if_neg h3]
  cases ext.contractNew with
  | error e1 => exact fun e h => Or.inl rfl
  | ok u2 =>
  intro e h
  rcases paymentOfferContract_err_state ext tb
      { s with hasContract := true } po herr e h with hL | hR
  · exact Or.inl hL
  · exact Or.inr hR

theorem paymentOffer_err_state (ext : Ext) (tb : TumblerS) (s : SessionS)
    (po : PaymentOfferReq) (herr : s.err = none) :
    ∀ e, (PaymentOffer ext tb s po).2 = Res.err e →
      (PaymentOffer ext tb s po).1.state = s.state ∨
      (PaymentOffer ext tb s po).1.state = StateOfferReceived := by
  unfold PaymentOffer
  cases ready s.state StateOfferReceived with
  | error e1 => exact fun e h => Or.inl rfl
  | ok u1 =>
  cases DecodeIndexList po.realPuzzleList with
  | error e1 => exact fun e h => Or.inl rfl
  | ok rpl =>
  intro e h
  rcases paymentOfferChecked_err_state ext tb
      { s with realPuzzleList := rpl } po herr e h with hL | hR
  · exact Or.inl hL
  · exact Or.inr hR


/-- C2 (amended): for `SetupEscrow`, `GetPuzzlePromises`, `ValidatePuzzles`,
`FinalizeEscrow`, `GetSolutionPromises` and `ValidateSolutions`, a returned
error always leaves the session's state field unchanged.  `PaymentOffer`
latches `StateOfferReceived` before the wallet offer-validation step, so an
error returned by that handler leaves the state either unchanged or equal to
`StateOfferReceived`. -/
theorem C2_error_leaves_state :
    (∀ ext tb s er, ErrKeepsState s (SetupEscrow ext tb s er)) ∧
    (∀ ext tb s cp, ErrKeepsState s (GetPuzzlePromises ext tb s cp)) ∧
    (∀ ext tb s cd, ErrKeepsState s (ValidatePuzzles ext tb s cd)) ∧
    (∀ ext s, ErrKeepsState s (FinalizeEscrow ext s)) ∧
    (∀ ext tb s sc, ErrKeepsState s (GetSolutionPromises ext tb s sc)) ∧
    (∀ ext tb s pd, ErrKeepsState s (ValidateSolutions ext tb s pd)) ∧
    (∀ ext tb s po e, s.err = none →
      (PaymentOffer ext tb s po).2 = .err e →
      (PaymentOffer ext tb s po).1.state = s.state ∨
      (PaymentOffer ext tb s po).1.state = StateOfferReceived) :=
  ⟨setupEscrow_err_state, getPuzzlePromises_err_state,
   validatePuzzles_err_state, finalizeEscrow_err_state,
   getSolutionPromises_err_state, validateSolutions_err_state,
   fun ext tb s po e herr h => paymentOffer_err_state ext tb s po herr e h⟩

/-- Witness for C2: a concrete failing `SetupEscrow` leaves the state at
`Initial`. -/
theorem C2_error_leaves_state_witness :
    (SetupEscrow badContractExt exampleTumbler (newSession "w")
      { address := "a", publicKey := "p", amount := 1 }).1.state =
      (newSession "w").state :=
  C2_error_leaves_state.1 badContractExt exampleTumbler (newSession "w")
    { address := "a", publicKey := "p", amount := 1 } "no utxos" (by decide)

/-- C2 counterexample: the claim as stated is false — `PaymentOffer` can
return an error with the session state already advanced from
`SolutionsValidated` to `OfferReceived`. -/
theorem C2_counterexample_payment_offer :
    (PaymentOffer offerFailExt exampleTumbler offerSession
      examplePaymentOffer).2 =
      .err "failed to validate offer tx: wallet rpc failed" ∧
    (PaymentOffer offerFailExt exampleTumbler offerSession
      examplePaymentOffer).1.state = StateOfferReceived ∧
    offerSession.state = StateSolutionsValidated ∧
    StateOfferReceived ≠ StateSolutionsValidated := by
  refine ⟨by decide, by decide, by decide, by decide⟩

/-- C3: the claim is false on the code — the bound checks use
`idx > len(...)`, so a decoded index equal to the stored array length passes
the check and the subsequent access faults instead of being rejected:
`ValidateSolutions` on a session holding one puzzle, given the fake list
`[1]`, faults. -/
theorem C3_oob_index_faults :
    (ValidateSolutions okExt exampleTumbler solutionsSession
      oobDisclosure).2 = Res.fault ∧
    DecodeIndexList oobDisclosure.fakePuzzleList = .ok [1] ∧
    solutionsSession.puzzles.length = 1 := by
  refine ⟨by decide, by decide, by decide⟩

theorem modInverse_spec {a n b : Nat} (hn : 1 < n)
    (h : modInverse a n = some b) : a * b % n = 1 ∧ b < n := by
  unfold modInverse at h
  by_cases hg : Nat.gcd a n = 1
  · rw [if_pos hg] at h
    have hb := Option.some.inj h
    have hnz : (n : ℤ) ≠ 0 := Int.ofNat_ne_zero.2 (by omega)
    have hmn : 0 ≤ Nat.gcdA a n % (n : ℤ) := Int.emod_nonneg _ hnz
    have hml : Nat.gcdA a n % (n : ℤ) < (n : ℤ) :=
      Int.emod_lt_of_pos _ (by exact_mod_cast Nat.zero_lt_of_lt hn)
    have hbInt : (b : ℤ) = Nat.gcdA a n % (n : ℤ) := by
      rw [← hb]; exact Int.toNat_of_nonneg hmn
    constructor
    · have key := Nat.gcd_eq_gcd_ab a n
      rw [hg] at key
      have hZ : ((a * b % n : ℕ) : ℤ) = 1 := by
        rw [Int.natCast_mod, Nat.cast_mul, hbInt, Int.mul_emod,
          Int.emod_emod, ← Int.mul_emod]
        have hsplit : (a : ℤ) * Nat.gcdA a n =
            1 + (n : ℤ) * (-(Nat.gcdB a n)) := by
          push_cast at key
          linarith
        rw [hsplit, Int.add_mul_emod_self_left]
        exact Int.emod_eq_of_lt (by norm_num) (by exact_mod_cast hn)
      exact_mod_cast hZ
    · have : (b : ℤ) < (n : ℤ) := by rw [hbInt]; exact hml
      exact_mod_cast this
  · rw [if_neg hg] at h
    exact absurd h (by simp)

theorem mul_inv_cancel_mod {N p b : Nat} (hN : 1 < N)
    (hp : p * b % N = 1) {v : Nat} (hv : v < N) :
    p * (v * b % N) % N = v := by
  have hpb : p * b ≡ 1 [MOD N] := by
    show (p * b) % N = 1 % N
    rw [Nat.mod_eq_of_lt hN]; exact hp
  have h1 : p * (v * b % N) ≡ p * (v * b) [MOD N] :=
    Nat.ModEq.mul_left p (Nat.mod_modEq _ N)
  have h2 : v * (p * b) ≡ v * 1 [MOD N] := Nat.ModEq.mul_left v hpb
  have hfinal : p * (v * b % N) ≡ v [MOD N] := by
    calc p * (v * b % N) ≡ p * (v * b) [MOD N] := h1
      _ = v * (p * b) := by ring
      _ ≡ v * 1 [MOD N] := h2
      _ = v := by ring
  have := hfinal
  unfold Nat.ModEq at this
  rw [Nat.mod_eq_of_lt hv] at this
  exact this

theorem pow_inv_cancel_mod {N e p b : Nat} (hN : 1 < N)
    (hp : p * b % N = 1) (v : Nat) :
    (p ^ e % N) * ((v * b % N) ^ e % N) % N = v ^ e % N := by
  have hpb : p * b ≡ 1 [MOD N] := by
    show (p * b) % N = 1 % N
    rw [Nat.mod_eq_of_lt hN]; exact hp
  have h1 : (p ^ e % N) * ((v * b % N) ^ e % N) ≡
      p ^ e * (v * b % N) ^ e [MOD N] :=
    Nat.ModEq.mul (Nat.mod_modEq _ N) (Nat.mod_modEq _ N)
  have h2 : (v * b % N) ^ e ≡ (v * b) ^ e [MOD N] :=
    (Nat.mod_modEq _ N).pow e
  have h3 : (v * (p * b)) ^ e ≡ (v * 1) ^ e [MOD N] :=
    (Nat.ModEq.mul_left v hpb).pow e
  have hfinal : (p ^ e % N) * ((v * b % N) ^ e % N) ≡ v ^ e [MOD N] := by
    calc (p ^ e % N) * ((v * b % N) ^ e % N)
        ≡ p ^ e * (v * b % N) ^ e [MOD N] := h1
      _ ≡ p ^ e * (v * b) ^ e [MOD N] := Nat.ModEq.mul_left _ h2
      _ = (v * (p * b)) ^ e := by ring
      _ ≡ (v * 1) ^ e [MOD N] := h3
      _ = v ^ e := by ring
  exact hfinal

theorem quotientsLoop_spec (N e : Nat) (hN : 1 < N) :
    ∀ (vals : List Nat) (prev : Nat),
      0 < prev → prev < N → Nat.gcd prev N = 1 →
      (∀ v ∈ vals, 0 < v ∧ v < N ∧ Nat.gcd v N = 1) →
      ∃ qs, quotientsLoop N prev (vals.map byteEncode) = .ok qs ∧
        verifySecretsLoop N prev qs (vals.map byteEncode) = true ∧
        verifyPuzzlesLoop N e qs (byteEncode (prev ^ e % N) ::
          vals.map (fun v => byteEncode (v ^ e % N))) = true := by
  intro vals
  induction vals with
  | nil => exact fun prev _ _ _ _ => ⟨[], rfl, rfl, rfl⟩
  | cons v rest ih =>
    intro prev hp0 hpN hpg hv
    obtain ⟨hv0, hvN, hvg⟩ := hv v (List.mem_cons_self ..)
    obtain ⟨b, hb⟩ : ∃ b, modInverse prev N = some b := by
      unfold modInverse; rw [if_pos hpg]; exact ⟨_, rfl⟩
    obtain ⟨hmul, hblt⟩ := modInverse_spec hN hb
    obtain ⟨qs, hqs, hsec, hpuz⟩ :=
      ih v hv0 hvN hvg (fun w hw => hv w (List.mem_cons_of_mem _ hw))
    refine ⟨byteEncode (v * b % N) :: qs, ?_, ?_, ?_⟩
    · simp only [List.map_cons, quotientsLoop, hb, byteDecode_byteEncode,
        hqs, Except.map]
    · simp only [List.map_cons, verifySecretsLoop, byteDecode_byteEncode]
      rw [mul_inv_cancel_mod hN hmul hvN]
      rw [if_pos (by simp [constantTimeEq])]
      exact hsec
    · simp only [List.map_cons, verifyPuzzlesLoop, byteDecode_byteEncode]
      rw [pow_inv_cancel_mod hN hmul v]
      rw [if_pos (by simp [constantTimeEq])]
      exact hpuz

/-- C5: for a non-empty list of canonical secrets in `(0, N)` coprime to
`N`, `Quotients` succeeds with the sentinel `1` in front, and both quotient
verifiers accept (the puzzle verifier starting at index 1) when the puzzles
are the encodings of `sᵢ^e mod N`. -/
theorem C5_quotient_chain (N e : Nat) (svals : List Nat) (hN : 1 < N)
    (hne : svals ≠ []) (hv : ∀ v ∈ svals, 0 < v ∧ v < N ∧ Nat.gcd v N = 1) :
    ∃ qs, Quotients ⟨N, e⟩ (svals.map byteEncode) = .ok qs ∧
      qs.head? = some (byteEncode 1) ∧
      VerifyQuotientsWithSecrets ⟨N, e⟩ qs (svals.map byteEncode) = true ∧
      VerifyQuotients ⟨N, e⟩ qs
        (svals.map fun v => byteEncode (v ^ e % N)) = true := by
  cases svals with
  | nil => exact absurd rfl hne
  | cons s0 rest =>
    obtain ⟨h00, h0N, h0g⟩ := hv s0 (List.mem_cons_self ..)
    obtain ⟨qs, hqs, hsec, hpuz⟩ := quotientsLoop_spec N e hN rest s0 h00
      h0N h0g (fun w hw => hv w (List.mem_cons_of_mem _ hw))
    refine ⟨byteEncode 1 :: qs, ?_, rfl, ?_, ?_⟩
    · simp only [List.map_cons, Quotients, byteDecode_byteEncode, hqs]
    · simp only [List.map_cons, VerifyQuotientsWithSecrets,
        verifySecretsLoop, byteDecode_byteEncode]
      have h1 : s0 * 1 % N = s0 := by
        rw [Nat.mul_one, Nat.mod_eq_of_lt h0N]
      rw [h1]
      rw [if_pos (by simp [constantTimeEq])]
      exact hsec
    · simp only [List.map_cons, VerifyQuotients]
      exact hpuz

/-- Witness for C5 with `N = 105`, `e = 5`, secrets `17` and `23`. -/
theorem C5_quotient_chain_witness :
    ∃ qs, Quotients ⟨105, 5⟩ ([17, 23].map byteEncode) = .ok qs ∧
      qs.head? = some (byteEncode 1) ∧
      VerifyQuotientsWithSecrets ⟨105, 5⟩ qs ([17, 23].map byteEncode) =
        true ∧
      VerifyQuotients ⟨105, 5⟩ qs
        ([17, 23].map fun v => byteEncode (v ^ 5 % 105)) = true :=
  C5_quotient_chain 105 5 [17, 23] (by decide) (by decide) (by decide)

theorem getD_set_self {l : List Nat} {i : Nat} (h : i < l.length) (v : Nat) :
    (l.set i v).getD i 0 = v := by
  rw [List.getD_eq_getElem?_getD, List.getElem?_set_self (by simpa using h)]
  rfl

theorem getD_set_ne {l : List Nat} {i j : Nat} (h : i ≠ j) (v : Nat) :
    (l.set i v).getD j 0 = l.getD j 0 := by
  rw [List.getD_eq_getElem?_getD, List.getElem?_set_ne h,
    ← List.getD_eq_getElem?_getD]

theorem getD_range {n p : Nat} (h : p < n) : (List.range n).getD p 0 = p := by
  rw [List.getD_eq_getElem?_getD, List.getElem?_range h]
  rfl

theorem getD_replicate (n x : Nat) : (List.replicate n 0).getD x 0 = 0 := by
  rw [List.getD_eq_getElem?_getD]
  by_cases h : x < n
  · rw [List.getElem?_replicate_of_lt h]; rfl
  · rw [List.getElem?_eq_none (by simpa using Nat.le_of_not_lt h)]; rfl

theorem swapL_length (l : List Nat) (i j : Nat) :
    (swapL l i j).length = l.length := by
  simp [swapL]

theorem getD_swapL (l : List Nat) (i j k : Nat) (hi : i < l.length)
    (hj : j < l.length) :
    (swapL l i j).getD k 0 =
      if k = j then l.getD i 0
      else if k = i then l.getD j 0
      else l.getD k 0 := by
  unfold swapL
  by_cases hkj : k = j
  · subst hkj
    rw [if_pos rfl, getD_set_self (by simpa using hj)]
  · rw [if_neg hkj, getD_set_ne (fun hh => hkj hh.symm)]
    by_cases hki : k = i
    · subst hki
      rw [if_pos rfl, getD_set_self hi]
    · rw [if_neg hki, getD_set_ne (fun hh => hki hh.symm)]

theorem lemireLoop_lt {src : Nat → Nat} {n thresh : Nat} (hn : 0 < n) :
    ∀ (fuel prod pos : Nat) {prod' pos' : Nat},
      prod < 2 ^ 32 * n →
      lemireLoop src n thresh prod pos fuel = some (prod', pos') →
      prod' < 2 ^ 32 * n := by
  intro fuel
  induction fuel with
  | zero => intro prod pos prod' pos' hp h; exact absurd h (by simp [lemireLoop])
  | succ f ih =>
    intro prod pos prod' pos' hp h
    unfold lemireLoop at h
    split at h
    · exact ih _ _
        ((Nat.mul_lt_mul_right hn).mpr (Nat.mod_lt _ (by norm_num))) h
    · have h1 := congrArg Prod.fst (Option.some.inj h)
      simp only [Prod.fst] at h1
      omega

theorem uniformRandom31_lt {src : Nat → Nat} {pos fuel n j pos' : Nat}
    (hn : 0 < n) (h : uniformRandom31 src pos fuel n = some (j, pos')) :
    j < n := by
  have hdiv : ∀ p : Nat, p < 2 ^ 32 * n → p / 2 ^ 32 < n := by
    intro p hp
    exact Nat.div_lt_of_lt_mul (by omega)
  have hv : src pos % 2 ^ 32 * n < 2 ^ 32 * n :=
    (Nat.mul_lt_mul_right hn).mpr (Nat.mod_lt _ (by norm_num))
  unfold uniformRandom31 at h
  simp only [] at h
  split at h
  · cases hL : lemireLoop src n ((2 ^ 32 - n) % n) (src pos % 2 ^ 32 * n)
        (pos + 1) (fuel + 1) with
    | none => rw [hL] at h; exact absurd h (by simp)
    | some pq =>
      obtain ⟨p', q'⟩ := pq
      rw [hL] at h
      have hj := congrArg Prod.fst (Option.some.inj h)
      simp only [Prod.fst] at hj
      rw [← hj]
      exact hdiv p' (lemireLoop_lt hn _ _ _ hv hL)
  · have hj := congrArg Prod.fst (Option.some.inj h)
    simp only [Prod.fst] at hj
    rw [← hj]
    exact hdiv _ hv

theorem shuffleLoop_fst_eq (src : Nat → Nat) (fuel : Nat) :
    ∀ (c pos : Nat) (a perm : List Nat) (r : List Nat × List Nat × List Nat),
      shuffleLoop src fuel pos c a a perm = some r → r.1 = r.2.1 := by
  intro c
  induction c with
  | zero =>
    intro pos a perm r h
    have := Option.some.inj h
    rw [← this]
  | succ c' ih =>
    intro pos a perm r h
    unfold shuffleLoop at h
    cases hu : uniformRandom31 src pos fuel (c' + 2) with
    | none => rw [hu] at h; exact absurd h (by simp)
    | some jp =>
      rw [hu] at h
      exact ih _ _ _ _ h

theorem shuffleLoop_spec (src : Nat → Nat) (fuel : Nat) (n : Nat) :
    ∀ (c pos : Nat) (a idx perm a' idx' perm' : List Nat),
      (c < n ∨ c = 0) →
      idx.length = n → perm.length = n →
      (∀ p, p < n → idx.getD p 0 < n) →
      (∀ p q, p < n → q < n → idx.getD p 0 = idx.getD q 0 → p = q) →
      (∀ p, c < p → p < n → perm.getD (idx.getD p 0) 0 = p) →
      (∀ x, x < n → (∀ p, c < p → p < n → idx.getD p 0 ≠ x) →
        perm.getD x 0 = 0) →
      shuffleLoop src fuel pos c a idx perm = some (a', idx', perm') →
      idx'.length = n ∧ perm'.length = n ∧
      (∀ p, p < n → idx'.getD p 0 < n) ∧
      (∀ p q, p < n → q < n → idx'.getD p 0 = idx'.getD q 0 → p = q) ∧
      (∀ p, 0 < p → p < n → perm'.getD (idx'.getD p 0) 0 = p) ∧
      (∀ x, x < n → (∀ p, 0 < p → p < n → idx'.getD p 0 ≠ x) →
        perm'.getD x 0 = 0) := by
  intro c
  induction c with
  | zero =>
    intro pos a idx perm a' idx' perm' _ h1 h2 h3 h4 h5 h6 h
    have heq := Option.some.inj h
    have hidx : idx = idx' := congrArg (fun t => t.2.1) heq
    have hperm : perm = perm' := congrArg (fun t => t.2.2) heq
    subst hidx; subst hperm
    exact ⟨h1, h2, h3, h4, h5, h6⟩
  | succ c' ih =>
    intro pos a idx perm a' idx' perm' hc h1 h2 h3 h4 h5 h6 h
    unfold shuffleLoop at h
    cases hu : uniformRandom31 src pos fuel (c' + 2) with
    | none => rw [hu] at h; exact absurd h (by simp)
    | some jp =>
      obtain ⟨j, pos2⟩ := jp
      rw [hu] at h
      have hI : c' + 1 < n := by
        rcases hc with hc | hc
        · exact hc
        · omega
      have hj2 : j < c' + 2 := uniformRandom31_lt (by omega) hu
      have hjn : j < n := by omega
      have hswap : ∀ k, (swapL idx (c' + 1) j).getD k 0 =
          if k = j then idx.getD (c' + 1) 0
          else if k = c' + 1 then idx.getD j 0
          else idx.getD k 0 :=
        fun k => getD_swapL idx (c' + 1) j k (by omega) (by omega)
      have hl1 : (swapL idx (c' + 1) j).length = n := by
        rw [swapL_length]; exact h1
      have hbound1 : ∀ p, p < n → (swapL idx (c' + 1) j).getD p 0 < n := by
        intro p hp
        rw [hswap p]
        split
        · exact h3 _ hI
        · split
          · exact h3 _ hjn
          · exact h3 _ hp
      have hσ : ∀ p, (swapL idx (c' + 1) j).getD p 0 =
          idx.getD (if p = j then c' + 1 else if p = c' + 1 then j else p)
            0 := by
        intro p
        rw [hswap p]
        by_cases hp1 : p = j
        · simp [hp1]
        · by_cases hp2 : p = c' + 1
          · have hcj : ¬(c' + 1 = j) := by rw [← hp2]; exact hp1
            simp [hp1, hp2, hcj]
          · simp [hp1, hp2]
      have hinj1 : ∀ p q, p < n → q < n →
          (swapL idx (c' + 1) j).getD p 0 =
            (swapL idx (c' + 1) j).getD q 0 → p = q := by
        intro p q hp hq hpq
        rw [hσ p, hσ q] at hpq
        have hσp : (if p = j then c' + 1 else if p = c' + 1 then j else p)
            < n := by split_ifs <;> omega
        have hσq : (if q = j then c' + 1 else if q = c' + 1 then j else q)
            < n := by split_ifs <;> omega
        have hss := h4 _ _ hσp hσq hpq
        revert hss
        split_ifs <;> omega
      -- the element now sitting at position c' + 1 is recorded in perm
      have hset : ∀ x, x < n →
          ((perm.set ((swapL idx (c' + 1) j).getD (c' + 1) 0)
            (c' + 1)).getD x 0) =
            if x = (swapL idx (c' + 1) j).getD (c' + 1) 0 then c' + 1
            else perm.getD x 0 := by
        intro x hx
        by_cases hxe : x = (swapL idx (c' + 1) j).getD (c' + 1) 0
        · subst hxe
          rw [if_pos rfl, getD_set_self (by
              rw [h2]; exact hbound1 _ hI)]
        · rw [if_neg hxe, getD_set_ne (fun hh => hxe hh.symm)]
      have hpl1 : (perm.set ((swapL idx (c' + 1) j).getD (c' + 1) 0)
          (c' + 1)).length = n := by
        rw [List.length_set]; exact h2
      have hinv1 : ∀ p, c' < p → p < n →
          (perm.set ((swapL idx (c' + 1) j).getD (c' + 1) 0)
            (c' + 1)).getD ((swapL idx (c' + 1) j).getD p 0) 0 = p := by
        intro p hpc hpn
        by_cases hpI : p = c' + 1
        · subst hpI
          rw [hset _ (hbound1 _ hI), if_pos rfl]
        · have hpgt : c' + 1 < p := by omega
          have hne : (swapL idx (c' + 1) j).getD p 0 ≠
              (swapL idx (c' + 1) j).getD (c' + 1) 0 := by
            intro hh
            exact hpI (hinj1 _ _ hpn hI hh)
          rw [hset _ (hbound1 _ hpn), if_neg hne]
          have hpj : p ≠ j := by omega
          rw [hswap p, if_neg hpj, if_neg hpI]
          exact h5 p hpgt hpn
      have hinv2 : ∀ x, x < n →
          (∀ p, c' < p → p < n → (swapL idx (c' + 1) j).getD p 0 ≠ x) →
          (perm.set ((swapL idx (c' + 1) j).getD (c' + 1) 0)
            (c' + 1)).getD x 0 = 0 := by
        intro x hx hall
        have hxI : (swapL idx (c' + 1) j).getD (c' + 1) 0 ≠ x :=
          hall (c' + 1) (by omega) hI
        rw [hset _ hx, if_neg (fun hh => hxI hh.symm)]
        apply h6 x hx
        intro p hpc hpn
        have hpj : p ≠ j := by omega
        have hpI : p ≠ c' + 1 := by omega
        have := hall p (by omega) hpn
        rw [hswap p, if_neg hpj, if_neg hpI] at this
        exact this
      exact ih _ (swapL a (c' + 1) j) _ _ _ _ _ (Or.inl (by omega)) hl1
        hpl1 hbound1 hinj1 hinv1 hinv2 h

theorem shuffleLoop_inverse (src : Nat → Nat) (fuel : Nat) (n : Nat)
    {pos : Nat} {a a' idx' perm' : List Nat}
    (h : shuffleLoop src fuel pos (n - 1) a (List.range n)
      (List.replicate n 0) = some (a', idx', perm')) :
    ∀ i, i < n → idx'.getD (perm'.getD i 0) 0 = i := by
  have hspec := shuffleLoop_spec src fuel n (n - 1) pos a (List.range n)
    (List.replicate n 0) a' idx' perm' (by omega)
    (List.length_range n) (List.length_replicate n 0)
    (fun p hp => by rw [getD_range hp]; exact hp)
    (fun p q hp hq hpq => by rwa [getD_range hp, getD_range hq] at hpq)
    (fun p hp hpn => by omega)
    (fun x hx _ => getD_replicate n x) h
  obtain ⟨hl, hpl, hbound, hinj, hinv1, hinv2⟩ := hspec
  have hall : ∀ p, p < n → perm'.getD (idx'.getD p 0) 0 = p := by
    intro p hp
    by_cases hp0 : 0 < p
    · exact hinv1 p hp0 hp
    · have hp0' : p = 0 := by omega
      subst hp0'
      apply hinv2 _ (hbound 0 hp)
      intro q hq0 hqn hqe
      exact absurd (hinj q 0 hqn hp hqe) (by omega)
  intro i hi
  have hsurj : Function.Surjective
      (fun p : Fin n => (⟨idx'.getD p.1 0, hbound p.1 p.2⟩ : Fin n)) := by
    apply Finite.injective_iff_surjective.mp
    intro p q hpq
    exact Fin.ext (hinj p.1 q.1 p.2 q.2 (congrArg Fin.val hpq))
  obtain ⟨p, hp⟩ := hsurj ⟨i, hi⟩
  have hidx : idx'.getD p.1 0 = i := congrArg Fin.val hp
  rw [← hidx, hall p.1 p.2, hidx]

/-- C9: `Shuffle` panics exactly outside `[0, 2^31 − 2]`; `n = 0` and
`n = 1` return without performing any swap; and on the identity array the
returned map sends every original index to its final position:
`a[m.Get(i)] == i` after the shuffle. -/
theorem C9_shuffle_inverse_map :
    (∀ (src : Nat → Nat) (fuel : Nat) (n : Int) (a : List Nat),
      n < 0 ∨ n > 2 ^ 31 - 2 → Shuffle src fuel n a = .panicked) ∧
    (∀ (src : Nat → Nat) (fuel : Nat) (n : Int) (a' perm : List Nat),
      0 ≤ n → n ≤ 2 ^ 31 - 2 →
      Shuffle src fuel n (List.range n.toNat) = .done a' perm →
      ∀ i, i < n.toNat → a'.getD (ShuffleMap.Get perm i) 0 = i) ∧
    (∀ (src : Nat → Nat) (fuel : Nat) (a : List Nat),
      Shuffle src fuel 0 a = .done a [] ∧
      Shuffle src fuel 1 a = .done a [0]) := by
  refine ⟨fun src fuel n a hn => ?_, fun src fuel n a' perm h0 h31 h => ?_,
    fun src fuel a => ⟨rfl, rfl⟩⟩
  · unfold Shuffle
    rw [if_pos (by rcases hn with hn | hn <;> simp [hn] <;> omega)]
  · unfold Shuffle at h
    rw [if_neg (by simp; omega)] at h
    simp only [] at h
    cases hL : shuffleLoop src fuel 0 (n.toNat - 1) (List.range n.toNat)
        (List.range n.toNat) (List.replicate n.toNat 0) with
    | none => rw [hL] at h; exact absurd h (by simp)
    | some r =>
      obtain ⟨a1, idx1, perm1⟩ := r
      rw [hL] at h
      have ha : a' = a1 := by
        have := ShuffleResult.done.inj h
        exact this.1.symm
      have hp : perm = perm1 := by
        have := ShuffleResult.done.inj h
        exact this.2.symm
      have hfst := shuffleLoop_fst_eq src fuel (n.toNat - 1) 0
        (List.range n.toNat) (List.replicate n.toNat 0) (a1, idx1, perm1) hL
      simp only [Prod.fst] at hfst
      intro i hi
      rw [ha, hp]
      unfold ShuffleMap.Get
      rw [hfst]
      exact shuffleLoop_inverse src fuel n.toNat hL i hi

/-- Witness for C9 at `n = 4` with the constant-1 random source (whose
draws all accept immediately). -/
theorem C9_shuffle_inverse_map_witness :
    ∀ i, i < 4 →
      (match Shuffle (fun _ => 1) 0 4 (List.range 4) with
        | .done a' perm => a'.getD (ShuffleMap.Get perm i) 0 = i
        | _ => False) := by
  intro i hi
  have h : Shuffle (fun _ => 1) 0 4 (List.range 4) =
      .done [1, 2, 3, 0] [3, 0, 1, 2] := by decide
  rw [h]
  exact C9_shuffle_inverse_map.2.1 (fun _ => 1) 0 4 [1, 2, 3, 0]
    [3, 0, 1, 2] (by decide) (by decide) h i (by exact_mod_cast hi)

theorem natCast_modEq {n a b : Nat} (h : a ≡ b [MOD n]) :
    (a : Int) ≡ (b : Int) [ZMOD (n : Int)] := by
  unfold Int.ModEq
  rw [← Int.natCast_mod, ← Int.natCast_mod]
  exact_mod_cast h

theorem coprime_list_prod {k : Nat} {l : List Nat}
    (h : ∀ v ∈ l, Nat.Coprime k v) : Nat.Coprime k l.prod := by
  induction l with
  | nil => simp [Nat.Coprime]
  | cons a t ih =>
    rw [List.prod_cons]
    exact Nat.Coprime.mul_right (h a (List.mem_cons_self ..))
      (ih fun v hv => h v (List.mem_cons_of_mem _ hv))

theorem int_add_emod_self (a b : Int) : (a + b) % b = a % b := by
  have h : a + b = a + 1 * b := by ring
  rw [h]
  exact Int.add_mul_emod_self

theorem pow_exp_modEq_le (r : Nat) (hr : r.Prime) (x a b : Nat)
    (ha : 0 < a) (hab : a ≡ b [MOD r - 1]) (hle : a ≤ b) :
    x ^ a ≡ x ^ b [MOD r] := by
  obtain ⟨k, hk⟩ := (Nat.modEq_iff_dvd' hle).mp hab
  have hb' : b = a + (r - 1) * k := by omega
  subst hb'
  by_cases hdvd : r ∣ x
  · have h1 : x ^ a ≡ 0 [MOD r] :=
      Nat.modEq_zero_iff_dvd.mpr (dvd_pow hdvd (by omega))
    have h2 : x ^ (a + (r - 1) * k) ≡ 0 [MOD r] :=
      Nat.modEq_zero_iff_dvd.mpr (dvd_pow hdvd (by omega))
    exact h1.trans h2.symm
  · have hcop : x.Coprime r := ((hr.coprime_iff_not_dvd).mpr hdvd).symm
    have hf : x ^ (r - 1) ≡ 1 [MOD r] := by
      have h0 := Nat.ModEq.pow_totient hcop
      rwa [Nat.totient_prime hr] at h0
    calc x ^ a = x ^ a * 1 ^ k := by rw [one_pow, mul_one]
      _ ≡ x ^ a * (x ^ (r - 1)) ^ k [MOD r] :=
        (Nat.ModEq.refl (x ^ a)).mul (hf.symm.pow k)
      _ = x ^ (a + (r - 1) * k) := by rw [pow_add, pow_mul]

/-- Fermat: modulo a prime `r`, positive exponents congruent modulo
`r - 1` give congruent powers (including for bases divisible by `r`). -/
theorem pow_exp_modEq (r : Nat) (hr : r.Prime) (x a b : Nat)
    (ha : 0 < a) (hb : 0 < b) (hab : a ≡ b [MOD r - 1]) :
    x ^ a ≡ x ^ b [MOD r] := by
  rcases Nat.le_total a b with h | h
  · exact pow_exp_modEq_le r hr x a b ha hab h
  · exact (pow_exp_modEq_le r hr x b a hb hab.symm h).symm

/-- The per-prime decryption congruence used by `decryptPuzzle`: raising
`c' ≡ (s·f)^e` to any positive exponent congruent to `d` modulo `r - 1`
recovers `s·f` modulo the prime `r`, given `e·d ≡ 1 (mod r - 1)`. -/
theorem crt_exp_modEq (r e d x s f c' n : Nat) (hr : r.Prime) (hrn : r ∣ n)
    (he : 0 < e) (hx : 0 < x) (hxd : x ≡ d [MOD r - 1])
    (hed : e * d ≡ 1 [MOD r - 1]) (hc' : c' ≡ (s * f) ^ e [MOD n]) :
    c' ^ x ≡ s * f [MOD r] := by
  have hc'r : c' ≡ (s * f) ^ e [MOD r] := hc'.of_dvd hrn
  calc c' ^ x ≡ ((s * f) ^ e) ^ x [MOD r] := hc'r.pow x
    _ = (s * f) ^ (e * x) := by rw [← pow_mul]
    _ ≡ (s * f) ^ 1 [MOD r] :=
      pow_exp_modEq r hr (s * f) (e * x) 1 (Nat.mul_pos he hx) one_pos
        ((hxd.mul_left e).trans hed)
    _ = s * f := pow_one _

/-- The shape `rsa.PrivateKey.Precompute` gives `CRTValues` relative to
the primes beyond the second: each entry carries a positive exponent
congruent to `d` modulo `prime - 1`, the running product `R` of all
earlier primes, and an inverse of `R` modulo its prime. -/
def crtValuesWF (d : Nat) : Nat → List CRTValue → List Nat → Prop
  | _, [], [] => True
  | R, cv :: cvs, rp :: rs =>
    0 < cv.exp ∧ cv.exp ≡ d [MOD rp - 1] ∧ cv.r = (R : Int) ∧
      cv.coeff * (R : Int) ≡ 1 [ZMOD (rp : Int)] ∧ crtValuesWF d (R * rp) cvs rs
  | _, _, _ => False

/-- The multi-prime CRT fold of `decryptPuzzle` keeps the accumulator
nonnegative and extends the congruence with the true plaintext from the
processed prime product to the full product. -/
theorem crtFold_spec (c' T d : Nat) (cvs : List CRTValue) :
    ∀ (rest : List Nat) (R : Nat) (m : Int),
      0 < R → 0 ≤ m → m ≡ (T : Int) [ZMOD (R : Int)] →
      (∀ r ∈ rest, r.Prime) →
      rest.Pairwise Nat.Coprime →
      Nat.Coprime R rest.prod →
      (∀ r ∈ rest, ∀ x, 0 < x → x ≡ d [MOD r - 1] → c' ^ x ≡ T [MOD r]) →
      crtValuesWF d R cvs rest →
      0 ≤ (cvs.zip rest).foldl (crtStep c') m ∧
        (cvs.zip rest).foldl (crtStep c') m ≡ (T : Int)
          [ZMOD ((R * rest.prod : Nat) : Int)] := by
  induction cvs with
  | nil =>
    intro rest R m hR hm0 hmR hprime hpw hcop hpow hwf
    cases rest with
    | nil =>
      refine ⟨hm0, ?_⟩
      simpa using hmR
    | cons rp rs => exact False.elim hwf
  | cons cv cvs ih =>
    intro rest R m hR hm0 hmR hprime hpw hcop hpow hwf
    cases rest with
    | nil => exact False.elim hwf
    | cons rp rs =>
      obtain ⟨hexp, hexpd, hcvr, hcoeff, hwf'⟩ :=
        (hwf : 0 < cv.exp ∧ cv.exp ≡ d [MOD rp - 1] ∧ cv.r = (R : Int) ∧
          cv.coeff * (R : Int) ≡ 1 [ZMOD (rp : Int)] ∧
          crtValuesWF d (R * rp) cvs rs)
      have hrp : rp.Prime := hprime rp (List.mem_cons_self ..)
      have hrpne : ((rp : Nat) : Int) ≠ 0 := Int.natCast_ne_zero.mpr hrp.pos.ne'
      obtain ⟨hrpcop, hpw'⟩ := List.pairwise_cons.mp hpw
      have hm2 : ((c' ^ cv.exp % rp : Nat) : Int) ≡ (T : Int)
          [ZMOD (rp : Int)] :=
        natCast_modEq ((Nat.mod_modEq _ _).trans
          (hpow rp (List.mem_cons_self ..) cv.exp hexp hexpd))
      have hstep : crtStep c' m (cv, rp) =
          m + (if (((c' ^ cv.exp % rp : Nat) : Int) - m) * cv.coeff %
                  (rp : Int) < 0
               then (((c' ^ cv.exp % rp : Nat) : Int) - m) * cv.coeff %
                  (rp : Int) + (rp : Int)
               else (((c' ^ cv.exp % rp : Nat) : Int) - m) * cv.coeff %
                  (rp : Int)) * cv.r := rfl
      rw [List.zip_cons_cons, List.foldl_cons, hstep,
        if_neg (not_lt.mpr (Int.emod_nonneg _ hrpne))]
      generalize hu : (((c' ^ cv.exp % rp : Nat) : Int) - m) * cv.coeff %
        (rp : Int) = u
      have hu0 : 0 ≤ u := hu ▸ Int.emod_nonneg _ hrpne
      have hu_cong : u ≡ (((c' ^ cv.exp % rp : Nat) : Int) - m) * cv.coeff
          [ZMOD (rp : Int)] := by
        rw [← hu]
        exact Int.emod_emod_of_dvd _ dvd_rfl
      have hm'0 : 0 ≤ m + u * cv.r := by
        refine add_nonneg hm0 (mul_nonneg hu0 ?_)
        rw [hcvr]
        exact Int.natCast_nonneg R
      have hmodR : m + u * cv.r ≡ (T : Int) [ZMOD (R : Int)] := by
        rw [hcvr]
        have h0 : (m + u * (R : Int)) % (R : Int) = m % (R : Int) :=
          Int.add_mul_emod_self
        exact h0.trans hmR
      have hmodr : m + u * cv.r ≡ (T : Int) [ZMOD (rp : Int)] := by
        calc m + u * cv.r
            ≡ m + (((c' ^ cv.exp % rp : Nat) : Int) - m) * cv.coeff * cv.r
              [ZMOD (rp : Int)] :=
              Int.ModEq.add_left m (hu_cong.mul_right cv.r)
          _ = m + (((c' ^ cv.exp % rp : Nat) : Int) - m) *
              (cv.coeff * (R : Int)) := by rw [hcvr]; ring
          _ ≡ m + (((c' ^ cv.exp % rp : Nat) : Int) - m) * 1
              [ZMOD (rp : Int)] :=
              Int.ModEq.add_left m (hcoeff.mul_left _)
          _ = ((c' ^ cv.exp % rp : Nat) : Int) := by ring
          _ ≡ (T : Int) [ZMOD (rp : Int)] := hm2
      have hcopRr : Nat.Coprime R rp :=
        Nat.Coprime.coprime_dvd_right
          (by rw [List.prod_cons]; exact dvd_mul_right rp rs.prod) hcop
      have hcomb : m + u * cv.r ≡ (T : Int) [ZMOD ((R * rp : Nat) : Int)] := by
        have h0 := (Int.modEq_and_modEq_iff_modEq_mul
          (by rw [Int.natAbs_ofNat, Int.natAbs_ofNat]; exact hcopRr)).mp
          ⟨hmodR, hmodr⟩
        rwa [show (R : Int) * (rp : Int) = ((R * rp : Nat) : Int) from
          (Int.natCast_mul R rp).symm] at h0
      have hcoprs : Nat.Coprime (R * rp) rs.prod := by
        apply Nat.Coprime.mul
        · exact Nat.Coprime.coprime_dvd_right
            (by rw [List.prod_cons]; exact dvd_mul_left rs.prod rp) hcop
        · exact coprime_list_prod hrpcop
      have hrec := ih rs (R * rp) (m + u * cv.r)
        (Nat.mul_pos hR hrp.pos) hm'0 hcomb
        (fun r hr => hprime r (List.mem_cons_of_mem _ hr))
        hpw' hcoprs
        (fun r hr x hx hxd => hpow r (List.mem_cons_of_mem _ hr) x hx hxd)
        hwf'
      refine ⟨hrec.1, ?_⟩
      rw [List.prod_cons, ← Nat.mul_assoc]
      exact hrec.2

/-- The two-prime Garner recombination at the head of `decryptPuzzle`. -/
theorem garnerBase_spec (T p q : Nat) (m1 m2 qv : Int)
    (hp : 0 < p) (hm2 : 0 ≤ m2)
    (h1 : m1 ≡ (T : Int) [ZMOD (p : Int)])
    (h2 : m2 ≡ (T : Int) [ZMOD (q : Int)])
    (hpq : Nat.Coprime p q)
    (hqi : (q : Int) * qv ≡ 1 [ZMOD (p : Int)]) :
    0 ≤ ((if m1 - m2 < 0 then m1 - m2 + (p : Int) else m1 - m2) * qv %
        (p : Int)) * (q : Int) + m2 ∧
      ((if m1 - m2 < 0 then m1 - m2 + (p : Int) else m1 - m2) * qv %
        (p : Int)) * (q : Int) + m2 ≡ (T : Int)
          [ZMOD ((p * q : Nat) : Int)] := by
  have hpne : ((p : Nat) : Int) ≠ 0 := Int.natCast_ne_zero.mpr hp.ne'
  generalize hw : (if m1 - m2 < 0 then m1 - m2 + (p : Int) else m1 - m2) = w
  have hw_cong : w ≡ m1 - m2 [ZMOD (p : Int)] := by
    rw [← hw]
    split
    · exact int_add_emod_self _ _
    · exact Int.ModEq.refl _
  generalize ht : w * qv % (p : Int) = t
  have ht0 : 0 ≤ t := ht ▸ Int.emod_nonneg _ hpne
  have ht_cong : t ≡ w * qv [ZMOD (p : Int)] := by
    rw [← ht]
    exact Int.emod_emod_of_dvd _ dvd_rfl
  refine ⟨add_nonneg (mul_nonneg ht0 (Int.natCast_nonneg q)) hm2, ?_⟩
  have hq_side : t * (q : Int) + m2 ≡ (T : Int) [ZMOD (q : Int)] := by
    have h0 : (m2 + t * (q : Int)) % (q : Int) = m2 % (q : Int) :=
      Int.add_mul_emod_self
    calc t * (q : Int) + m2 = m2 + t * (q : Int) := by ring
      _ ≡ m2 [ZMOD (q : Int)] := h0
      _ ≡ (T : Int) [ZMOD (q : Int)] := h2
  have hp_side : t * (q : Int) + m2 ≡ (T : Int) [ZMOD (p : Int)] := by
    calc t * (q : Int) + m2
        ≡ w * qv * (q : Int) + m2 [ZMOD (p : Int)] :=
          (ht_cong.mul_right _).add_right m2
      _ ≡ (m1 - m2) * qv * (q : Int) + m2 [ZMOD (p : Int)] :=
          (((hw_cong.mul_right qv).mul_right _)).add_right m2
      _ = (m1 - m2) * ((q : Int) * qv) + m2 := by ring
      _ ≡ (m1 - m2) * 1 + m2 [ZMOD (p : Int)] :=
          (hqi.mul_left _).add_right m2
      _ = m1 := by ring
      _ ≡ (T : Int) [ZMOD (p : Int)] := h1
  have h0 := (Int.modEq_and_modEq_iff_modEq_mul
    (by rw [Int.natAbs_ofNat, Int.natAbs_ofNat]; exact hpq)).mp
    ⟨hp_side, hq_side⟩
  rwa [show (p : Int) * (q : Int) = ((p * q : Nat) : Int) from
    (Int.natCast_mul p q).symm] at h0

/-- Well-formedness of a `PuzzleKey` as produced by Go's
`rsa.GenerateMultiPrimeKey` (distinct primes whose product is the
modulus and a working exponent pair), `Precompute` (the standard CRT
constants) and `newBlindingFactor` (an invertible blinding factor). -/
structure KeyWF (pk : PuzzleKey) (pre : Precomputed) : Prop where
  hpre : pk.rsakey.precomputed = some pre
  he : 0 < pk.rsakey.e
  hd : 0 < pk.rsakey.d
  hlen : 2 ≤ pk.rsakey.primes.length
  hprimes : ∀ r ∈ pk.rsakey.primes, r.Prime
  hdistinct : pk.rsakey.primes.Pairwise (· ≠ ·)
  hn : pk.rsakey.n = pk.rsakey.primes.prod
  hed : ∀ r ∈ pk.rsakey.primes, pk.rsakey.e * pk.rsakey.d ≡ 1 [MOD r - 1]
  hdp : 0 < pre.dp ∧
    pre.dp ≡ pk.rsakey.d [MOD pk.rsakey.primes.getD 0 0 - 1]
  hdq : 0 < pre.dq ∧
    pre.dq ≡ pk.rsakey.d [MOD pk.rsakey.primes.getD 1 0 - 1]
  hqinv : ((pk.rsakey.primes.getD 1 0 : Nat) : Int) * pre.qinv ≡ 1
    [ZMOD ((pk.rsakey.primes.getD 0 0 : Nat) : Int)]
  hcrt : crtValuesWF pk.rsakey.d
    (pk.rsakey.primes.getD 0 0 * pk.rsakey.primes.getD 1 0)
    pre.crtValues (pk.rsakey.primes.drop 2)
  hfi : pk.factor * pk.inverse ≡ 1 [MOD pk.rsakey.n]

theorem modEq_toNat_eq {a : Int} {n s : Nat}
    (h : a ≡ (s : Int) [ZMOD (n : Int)]) (hs : s < n) :
    (a % (n : Int)).toNat = s := by
  have h1 : a % (n : Int) = (s : Int) % (n : Int) := h
  rw [h1, Int.emod_eq_of_lt (Int.natCast_nonneg s) (by exact_mod_cast hs),
    Int.toNat_natCast]

/-- On a well-formed key, `decryptPuzzle` recovers any secret below the
modulus from its RSA encryption: the per-key blinding factor and its
inverse cancel exactly. -/
theorem decryptPuzzle_spec (pk : PuzzleKey) (pre : Precomputed) (s : Nat)
    (hwf : KeyWF pk pre) (hs : s < pk.rsakey.n) :
    decryptPuzzle pk (s ^ pk.rsakey.e % pk.rsakey.n) = .ok s := by
  obtain ⟨hpre, he, hd, hlen, hprimes, hdistinct, hn, hed, hdp, hdq,
    hqinv, hcrt, hfi⟩ := hwf
  rcases hps : pk.rsakey.primes with _ | ⟨p, _ | ⟨q, rest⟩⟩
  · rw [hps] at hlen; simp at hlen
  · rw [hps] at hlen; simp at hlen
  rw [hps] at hprimes hdistinct hn hed hdp hdq hqinv hcrt
  have hgetD0 : (p :: q :: rest).getD 0 0 = p := rfl
  have hgetD1 : (p :: q :: rest).getD 1 0 = q := rfl
  have hdrop2 : (p :: q :: rest).drop 2 = rest := rfl
  rw [hgetD0] at hdp hqinv hcrt
  rw [hgetD1] at hdq hqinv hcrt
  rw [hdrop2] at hcrt
  have hp' : p.Prime := hprimes p (List.mem_cons_self ..)
  have hq' : q.Prime := hprimes q (List.mem_cons_of_mem _ (List.mem_cons_self ..))
  obtain ⟨hpne, hdist2⟩ := List.pairwise_cons.mp hdistinct
  obtain ⟨hqne, hdist3⟩ := List.pairwise_cons.mp hdist2
  have hpq : Nat.Coprime p q :=
    (Nat.coprime_primes hp' hq').mpr (hpne q (List.mem_cons_self ..))
  have hnpos : 0 < pk.rsakey.n := by
    rw [hn]
    exact List.prod_pos (fun x hx => (hprimes x hx).pos)
  have hguard : ¬ pk.rsakey.n < s ^ pk.rsakey.e % pk.rsakey.n :=
    not_lt.mpr (le_of_lt (Nat.mod_lt _ hnpos))
  have hc' : s ^ pk.rsakey.e % pk.rsakey.n *
        (pk.factor ^ pk.rsakey.e % pk.rsakey.n) % pk.rsakey.n
      ≡ (s * pk.factor) ^ pk.rsakey.e [MOD pk.rsakey.n] := by
    calc s ^ pk.rsakey.e % pk.rsakey.n *
          (pk.factor ^ pk.rsakey.e % pk.rsakey.n) % pk.rsakey.n
        ≡ s ^ pk.rsakey.e % pk.rsakey.n *
          (pk.factor ^ pk.rsakey.e % pk.rsakey.n) [MOD pk.rsakey.n] :=
          Nat.mod_modEq _ _
      _ ≡ s ^ pk.rsakey.e * pk.factor ^ pk.rsakey.e [MOD pk.rsakey.n] :=
          (Nat.mod_modEq _ _).mul (Nat.mod_modEq _ _)
      _ = (s * pk.factor) ^ pk.rsakey.e :=
          (mul_pow s pk.factor pk.rsakey.e).symm
  have hpow : ∀ r ∈ p :: q :: rest, ∀ x, 0 < x →
      x ≡ pk.rsakey.d [MOD r - 1] →
      (s ^ pk.rsakey.e % pk.rsakey.n *
        (pk.factor ^ pk.rsakey.e % pk.rsakey.n) % pk.rsakey.n) ^ x
        ≡ s * pk.factor [MOD r] := by
    intro r hr x hx hxd
    exact crt_exp_modEq r pk.rsakey.e pk.rsakey.d x s pk.factor _
      pk.rsakey.n (hprimes r hr)
      (by rw [hn]; exact List.dvd_prod hr) he hx hxd (hed r hr) hc'
  unfold decryptPuzzle
  simp only []
  rw [if_neg hguard, hpre]
  simp only []
  rw [hps, hgetD0, hgetD1, hdrop2]
  generalize hcg : s ^ pk.rsakey.e % pk.rsakey.n *
    (pk.factor ^ pk.rsakey.e % pk.rsakey.n) % pk.rsakey.n = c'
  rw [hcg] at hpow
  have hm1 : ((c' ^ pre.dp % p : Nat) : Int) ≡
      ((s * pk.factor : Nat) : Int) [ZMOD (p : Int)] :=
    natCast_modEq ((Nat.mod_modEq _ _).trans
      (hpow p (List.mem_cons_self ..) pre.dp hdp.1 hdp.2))
  have hm2 : ((c' ^ pre.dq % q : Nat) : Int) ≡
      ((s * pk.factor : Nat) : Int) [ZMOD (q : Int)] :=
    natCast_modEq ((Nat.mod_modEq _ _).trans
      (hpow q (List.mem_cons_of_mem _ (List.mem_cons_self ..))
        pre.dq hdq.1 hdq.2))
  have hbase := garnerBase_spec (s * pk.factor) p q
    ((c' ^ pre.dp % p : Nat) : Int) ((c' ^ pre.dq % q : Nat) : Int)
    pre.qinv hp'.pos (Int.natCast_nonneg _) hm1 hm2 hpq hqinv
  have hpw2 : rest.Pairwise Nat.Coprime :=
    hdist3.imp_of_mem (fun ha hb hne =>
      (Nat.coprime_primes
        (hprimes _ (List.mem_cons_of_mem _ (List.mem_cons_of_mem _ ha)))
        (hprimes _ (List.mem_cons_of_mem _ (List.mem_cons_of_mem _ hb)))).mpr
        hne)
  have hcop2 : Nat.Coprime (p * q) rest.prod := by
    apply Nat.Coprime.mul
    · exact coprime_list_prod (fun v hv =>
        (Nat.coprime_primes hp'
          (hprimes v (List.mem_cons_of_mem _ (List.mem_cons_of_mem _ hv)))).mpr
          (hpne v (List.mem_cons_of_mem _ hv)))
    · exact coprime_list_prod (fun v hv =>
        (Nat.coprime_primes hq'
          (hprimes v (List.mem_cons_of_mem _ (List.mem_cons_of_mem _ hv)))).mpr
          (hqne v hv))
  have hfold := crtFold_spec c' (s * pk.factor) pk.rsakey.d pre.crtValues
    rest (p * q) _ (Nat.mul_pos hp'.pos hq'.pos) hbase.1 hbase.2
    (fun r hr => hprimes r (List.mem_cons_of_mem _ (List.mem_cons_of_mem _ hr)))
    hpw2 hcop2
    (fun r hr x hx hxd =>
      hpow r (List.mem_cons_of_mem _ (List.mem_cons_of_mem _ hr)) x hx hxd)
    hcrt
  have hnprod : p * q * rest.prod = pk.rsakey.n := by
    rw [hn, List.prod_cons, List.prod_cons]
    ring
  rw [hnprod] at hfold
  refine congrArg Except.ok ?_
  refine modEq_toNat_eq ?_ hs
  refine (Int.ModEq.mul_right _ hfold.2).trans ?_
  rw [show ((s * pk.factor : Nat) : Int) * ((pk.inverse : Nat) : Int)
      = ((s * pk.factor * pk.inverse : Nat) : Int) from
    (Int.natCast_mul _ _).symm]
  refine natCast_modEq ?_
  calc s * pk.factor * pk.inverse = s * (pk.factor * pk.inverse) := by ring
    _ ≡ s * 1 [MOD pk.rsakey.n] := Nat.ModEq.mul_left s hfi
    _ = s := mul_one s

/-- C6: on a well-formed RSA puzzle key, for every secret `s` below the
modulus, `SolvePuzzle` inverts `createPuzzle` (the per-key blinding
factor and its inverse cancel exactly) and returns the canonical
encoding of `s`, and `ValidatePuzzle` accepts `s` against the puzzle;
`ValidatePuzzle` rejects any candidate whose value is at least the
modulus. -/
theorem C6_solve_and_validate (pk : PuzzleKey) (pre : Precomputed) (s : Nat)
    (hwf : KeyWF pk pre) (hs : s < pk.rsakey.n) :
    SolvePuzzle pk (createPuzzle pk.PublicKey s) = .ok (byteEncode s) ∧
      ValidatePuzzle pk.PublicKey (createPuzzle pk.PublicKey s)
        (byteEncode s) = true ∧
      ∀ cand puz, pk.rsakey.n ≤ byteDecode cand →
        ValidatePuzzle pk.PublicKey puz cand = false := by
  have hdec := decryptPuzzle_spec pk pre s hwf hs
  refine ⟨?_, ?_, ?_⟩
  · have h1 : byteDecode (createPuzzle pk.PublicKey s) =
        s ^ pk.rsakey.e % pk.rsakey.n := by
      unfold createPuzzle PuzzleKey.PublicKey
      exact byteDecode_byteEncode _
    unfold SolvePuzzle
    rw [h1, hdec]
    show (if constantTimeEq (createPuzzle pk.PublicKey s)
          (createPuzzle pk.PublicKey s) = true
        then pure (byteEncode s)
        else Except.error "error in the CRT computation")
      = Except.ok (byteEncode s)
    rw [if_pos (by simp [constantTimeEq])]
    rfl
  · unfold ValidatePuzzle
    rw [byteDecode_byteEncode]
    have hs' : ¬ (pk.PublicKey.n ≤ s) := not_le.mpr hs
    rw [if_neg hs']
    simp [constantTimeEq]
  · intro cand puz hge
    unfold ValidatePuzzle
    have hge' : pk.PublicKey.n ≤ byteDecode cand := hge
    rw [if_pos hge']

/-- The precomputed CRT constants of `exampleKey`. -/
def examplePre : Precomputed :=
  { dp := 1, dq := 1, qinv := 2,
    crtValues := [{ exp := 5, coeff := 1, r := 15 }] }

theorem exampleKey_wf : KeyWF exampleKey examplePre :=
  ⟨rfl, by decide, by decide, by decide, by decide, by decide, rfl,
    by decide, by decide, by decide, by decide,
    ⟨by decide, by decide, rfl, by decide, trivial⟩, by decide⟩

/-- Witness for C6 on the three-prime example key with secret `17`. -/
theorem C6_solve_and_validate_witness :
    SolvePuzzle exampleKey (createPuzzle exampleKey.PublicKey 17)
        = .ok (byteEncode 17) ∧
      ValidatePuzzle exampleKey.PublicKey
        (createPuzzle exampleKey.PublicKey 17) (byteEncode 17) = true ∧
      ValidatePuzzle exampleKey.PublicKey [1] (byteEncode 200) = false := by
  obtain ⟨h1, h2, h3⟩ := C6_solve_and_validate exampleKey examplePre 17
    exampleKey_wf (by decide)
  exact ⟨h1, h2, h3 (byteEncode 200) [1]
    (by rw [byteDecode_byteEncode]; decide)⟩

end Tumblebit
